import Mathlib

set_option maxRecDepth 100000

/-!
# TubeGenie backend — verification of the core logic

Shallow embedding of the TubeGenie backend's core logic:

* the response normalizer (`AIService.parseAIResponse` in `ai.service.ts`),
  including a model of JavaScript's `JSON.parse` restricted to the JSON
  grammar (numbers are kept as their decimal lexemes, since no behaviour
  under verification depends on numeric magnitude beyond zero-ness);
* the model registry (`ai.config.ts`);
* the content store and service operations (`content.service.ts`), with
  MongoDB modelled as a list of records plus an id counter;
* the analytics aggregations (`analytics.service.ts`);
* the controller-level request flows (`content.controller.ts`).

Timestamps are modelled as natural numbers of milliseconds since the epoch;
UTC calendar days are `t / 86400000`.
-/

namespace TubeGenie

mutual

/-- JSON values as produced by `JSON.parse`.  Numbers are kept as their raw
decimal lexeme: the backend never uses a parsed number's magnitude, only its
JavaScript truthiness (zero vs non-zero), which is decidable from the lexeme.
Arrays and objects carry their own list-like types (`JsonArr`, `JsonObj`) so
that decidable equality can be derived. -/
inductive Json where
  | null : Json
  | bool (b : Bool) : Json
  | num (lexeme : String) : Json
  | str (s : String) : Json
  | arr (elems : JsonArr) : Json
  | obj (members : JsonObj) : Json
deriving DecidableEq

/-- The element list of a JSON array. -/
inductive JsonArr where
  | nil : JsonArr
  | cons (hd : Json) (tl : JsonArr) : JsonArr
deriving DecidableEq

/-- The member list of a JSON object, in insertion order. -/
inductive JsonObj where
  | nil : JsonObj
  | cons (key : String) (val : Json) (tl : JsonObj) : JsonObj
deriving DecidableEq

end

/-- Length of a JSON array (`.length` in the source's checks). -/
def JsonArr.length : JsonArr → Nat
  | .nil => 0
  | .cons _ tl => 1 + tl.length

/-- Whitespace accepted between JSON tokens by `JSON.parse`. -/
def isJsonWs (c : Char) : Bool :=
  c == ' ' || c == '\t' || c == '\n' || c == '\r'

/-- Whitespace stripped by JavaScript `String.prototype.trim` and matched by
the `\s` regex class (restricted to the ASCII members, which are the only
ones the backend's inputs exercise). -/
def isTrimWs (c : Char) : Bool :=
  c == ' ' || c == '\t' || c == '\n' || c == '\r' || c == '\x0b' || c == '\x0c'

def skipWs (cs : List Char) : List Char := cs.dropWhile isJsonWs

def hexVal (c : Char) : Option Nat :=
  if '0' ≤ c ∧ c ≤ '9' then some (c.toNat - '0'.toNat)
  else if 'a' ≤ c ∧ c ≤ 'f' then some (c.toNat - 'a'.toNat + 10)
  else if 'A' ≤ c ∧ c ≤ 'F' then some (c.toNat - 'A'.toNat + 10)
  else none

def isDigit (c : Char) : Bool := '0' ≤ c && c ≤ '9'

/-- Parse the body of a JSON string literal (after the opening quote),
returning the decoded characters and the input remaining after the closing
quote.  Mirrors `JSON.parse`: control characters must be escaped, and the
escapes `\" \\ \/ \b \f \n \r \t \uXXXX` are recognised. -/
def parseStrBody : Nat → List Char → Option (List Char × List Char)
  | 0, _ => none
  | _ + 1, [] => none
  | _ + 1, '"' :: rest => some ([], rest)
  | fuel + 1, '\\' :: esc =>
    match esc with
    | '"' :: r => (parseStrBody fuel r).map (fun p => ('"' :: p.1, p.2))
    | '\\' :: r => (parseStrBody fuel r).map (fun p => ('\\' :: p.1, p.2))
    | '/' :: r => (parseStrBody fuel r).map (fun p => ('/' :: p.1, p.2))
    | 'b' :: r => (parseStrBody fuel r).map (fun p => ('\x08' :: p.1, p.2))
    | 'f' :: r => (parseStrBody fuel r).map (fun p => ('\x0c' :: p.1, p.2))
    | 'n' :: r => (parseStrBody fuel r).map (fun p => ('\n' :: p.1, p.2))
    | 'r' :: r => (parseStrBody fuel r).map (fun p => ('\x0d' :: p.1, p.2))
    | 't' :: r => (parseStrBody fuel r).map (fun p => ('\t' :: p.1, p.2))
    | 'u' :: h1 :: h2 :: h3 :: h4 :: r =>
      match hexVal h1, hexVal h2, hexVal h3, hexVal h4 with
      | some a, some b, some c, some d =>
        (parseStrBody fuel r).map
          (fun p => (Char.ofNat (((a * 16 + b) * 16 + c) * 16 + d) :: p.1, p.2))
      | _, _, _, _ => none
    | _ => none
  | fuel + 1, c :: rest =>
    if c.toNat < 0x20 then none
    else (parseStrBody fuel rest).map (fun p => (c :: p.1, p.2))

/-- Parse a JSON number, returning its lexeme.  Follows the JSON grammar:
`-?(0|[1-9][0-9]*)(.[0-9]+)?([eE][+-]?[0-9]+)?`. -/
def parseNum (cs : List Char) : Option (Json × List Char) :=
  let (sgn, cs1) :=
    match cs with
    | '-' :: r => (['-'], r)
    | _ => (([] : List Char), cs)
  match cs1 with
  | '0' :: r => parseFracExp (sgn ++ ['0']) r
  | c :: _ =>
    if isDigit c ∧ c ≠ '0' then
      let digits := cs1.takeWhile isDigit
      parseFracExp (sgn ++ digits) (cs1.drop digits.length)
    else none
  | [] => none
where
  parseFracExp (intPart : List Char) (cs : List Char) : Option (Json × List Char) :=
    let (fracPart, cs2) :=
      match cs with
      | '.' :: r =>
        let ds := r.takeWhile isDigit
        if ds.isEmpty then (none, cs) else (some ('.' :: ds), r.drop ds.length)
      | _ => ((none : Option (List Char)), cs)
    match fracPart with
    | none =>
      match cs with
      | '.' :: _ => none
      | _ => parseExp intPart cs
    | some fp => parseExp (intPart ++ fp) cs2
  parseExp (mant : List Char) (cs : List Char) : Option (Json × List Char) :=
    match cs with
    | c :: r =>
      if c = 'e' ∨ c = 'E' then
        let (sgn2, r2) :=
          match r with
          | '+' :: r' => (['+'], r')
          | '-' :: r' => (['-'], r')
          | _ => (([] : List Char), r)
        let ds := r2.takeWhile isDigit
        if ds.isEmpty then none
        else some (.num (String.mk (mant ++ [c] ++ sgn2 ++ ds)), r2.drop ds.length)
      else some (.num (String.mk mant), cs)
    | [] => some (.num (String.mk mant), [])

/-- Insert-or-overwrite a member of a JavaScript object: an existing key keeps
its position but its value is replaced (last assignment wins), a new key is
appended.  This is how `JSON.parse` builds objects with duplicate keys. -/
def JsonObj.set (ms : JsonObj) (k : String) (v : Json) : JsonObj :=
  match ms with
  | .nil => .cons k v .nil
  | .cons k' v' rest =>
    if k' = k then .cons k v rest else .cons k' v' (rest.set k v)

mutual

/-- Parse one JSON value (leading whitespace allowed), fuel-bounded. -/
def parseVal : Nat → List Char → Option (Json × List Char)
  | 0, _ => none
  | fuel + 1, cs =>
    match skipWs cs with
    | 'n' :: 'u' :: 'l' :: 'l' :: rest => some (.null, rest)
    | 't' :: 'r' :: 'u' :: 'e' :: rest => some (.bool true, rest)
    | 'f' :: 'a' :: 'l' :: 's' :: 'e' :: rest => some (.bool false, rest)
    | '"' :: rest =>
      (parseStrBody (rest.length + 1) rest).map
        (fun p => (.str (String.mk p.1), p.2))
    | '[' :: rest =>
      (match skipWs rest with
       | ']' :: r => some (.arr .nil, r)
       | _ => (parseElems fuel (skipWs rest)).map (fun p => (.arr p.1, p.2)))
    | '{' :: rest =>
      (match skipWs rest with
       | '}' :: r => some (.obj .nil, r)
       | _ => (parseMembers fuel .nil (skipWs rest)).map (fun p => (.obj p.1, p.2)))
    | other => parseNum other

/-- Parse the comma-separated elements of a non-empty JSON array, up to and
including the closing bracket. -/
def parseElems : Nat → List Char → Option (JsonArr × List Char)
  | 0, _ => none
  | fuel + 1, cs =>
    match parseVal fuel cs with
    | none => none
    | some (v, rest) =>
      match skipWs rest with
      | ',' :: r => (parseElems fuel r).map (fun p => (.cons v p.1, p.2))
      | ']' :: r => some (.cons v .nil, r)
      | _ => none

/-- Parse the comma-separated members of a non-empty JSON object, up to and
including the closing brace, accumulating with last-wins duplicate handling. -/
def parseMembers : Nat → JsonObj → List Char → Option (JsonObj × List Char)
  | 0, _, _ => none
  | fuel + 1, acc, cs =>
    match skipWs cs with
    | '"' :: rest =>
      match parseStrBody (rest.length + 1) rest with
      | none => none
      | some (key, rest2) =>
        match skipWs rest2 with
        | ':' :: rest3 =>
          match parseVal fuel rest3 with
          | none => none
          | some (v, rest4) =>
            let acc' := acc.set (String.mk key) v
            match skipWs rest4 with
            | ',' :: r => parseMembers fuel acc' r
            | '}' :: r => some (acc', r)
            | _ => none
        | _ => none
    | _ => none

end

/-- `JSON.parse` on a character list: one value, optionally surrounded by
whitespace, nothing else. -/
def jsonParseChars (cs : List Char) : Option Json :=
  match parseVal (2 * cs.length + 4) cs with
  | some (v, rest) => if (skipWs rest).isEmpty then some v else none
  | none => none

def jsonParse (s : String) : Option Json := jsonParseChars s.data

/-- JavaScript truthiness of a parsed JSON value (`undefined` is represented
by the absence of the value).  A number is falsy exactly when it denotes zero,
i.e. when its mantissa contains no non-zero digit. -/
def Json.truthy : Json → Bool
  | .null => false
  | .bool b => b
  | .num lex =>
    !((lex.data.takeWhile (fun c => c ≠ 'e' ∧ c ≠ 'E')).all
      (fun c => c = '0' ∨ c = '.' ∨ c = '-'))
  | .str s => s ≠ ""
  | .arr _ => true
  | .obj _ => true

/-! ## The response normalizer (`AIService.parseAIResponse`) -/

/-- Classified normalizer failures (spec §4.1 / §7): `malformed` covers both
"no `{…}` region found" and a JSON parse failure; `incomplete` lists the
required keys whose looked-up value was absent or falsy; `invalidField` names
the field that failed the type checks. -/
inductive NormError where
  | malformed : NormError
  | incomplete (missing : List String) : NormError
  | invalidField (field : String) : NormError
deriving DecidableEq, Repr

/-- The five validated content fields returned by the normalizer, exactly as
parsed (array elements are arbitrary JSON values: the source only checks
`Array.isArray` and non-zero length, never the element types). -/
structure GenFields where
  titles : JsonArr
  description : String
  tags : JsonArr
  thumbnailIdeas : JsonArr
  scriptOutline : JsonArr
deriving DecidableEq

def requiredFields : List String :=
  ["titles", "description", "tags", "thumbnailIdeas", "scriptOutline"]

/-- Property lookup on a parsed object (keys are unique by construction of
`parseMembers`, so first match equals JavaScript property access). -/
def JsonObj.get (ms : JsonObj) (k : String) : Option Json :=
  match ms with
  | .nil => none
  | .cons k' v rest => if k' = k then some v else rest.get k

def propTruthy (ms : JsonObj) (k : String) : Bool :=
  match ms.get k with
  | some v => v.truthy
  | none => false

/-- `!Array.isArray(v) || v.length === 0` check from the source, as a
success-extraction. -/
def checkArr (f : String) (v : Option Json) : Except NormError JsonArr :=
  match v with
  | some (.arr (.cons x xs)) => .ok (.cons x xs)
  | _ => .error (.invalidField f)

/-- `typeof v !== 'string' || v.trim() === ''` check from the source. -/
def trimChars (cs : List Char) : List Char :=
  ((cs.dropWhile isTrimWs).reverse.dropWhile isTrimWs).reverse

def checkDesc (v : Option Json) : Except NormError String :=
  match v with
  | some (.str s) =>
    if (trimChars s.data).isEmpty then .error (.invalidField "description")
    else .ok s
  | _ => .error (.invalidField "description")

/-- The validation part of `parseAIResponse`: the missing-fields filter uses
JavaScript truthiness (`!parsed[field]`), then the four array checks and the
description check run in source order. -/
def validateParsed (ms : JsonObj) : Except NormError GenFields :=
  let missing := requiredFields.filter (fun f => ! propTruthy ms f)
  if missing.isEmpty then do
    let titles ← checkArr "titles" (ms.get "titles")
    let tags ← checkArr "tags" (ms.get "tags")
    let thumbs ← checkArr "thumbnailIdeas" (ms.get "thumbnailIdeas")
    let outline ← checkArr "scriptOutline" (ms.get "scriptOutline")
    let desc ← checkDesc (ms.get "description")
    return ⟨titles, desc, tags, thumbs, outline⟩
  else .error (.incomplete missing)

/-- The source's first `replace`: strip a leading Markdown fence marker
(three backticks), an optional case-insensitive `json` tag, and following
whitespace. -/
def stripLeadingFence (cs : List Char) : List Char :=
  if cs.take 3 = ['`', '`', '`'] then
    let r := cs.drop 3
    let r2 :=
      if (r.take 4).map Char.toLower = ['j', 's', 'o', 'n'] then r.drop 4
      else r
    r2.dropWhile isTrimWs
  else cs

/-- The source's second `replace`: strip a trailing fence marker and the
whitespace before it. -/
def stripTrailingFence (cs : List Char) : List Char :=
  if cs.reverse.take 3 = ['`', '`', '`'] then
    ((cs.reverse.drop 3).dropWhile isTrimWs).reverse
  else cs

/-- `cleanedResponse.match(/\{[\s\S]*\}/)` — the substring from the first `{`
to the last `}`, or `none` when no such region exists. -/
def extractCandidate (cs : List Char) : Option (List Char) :=
  let t := cs.dropWhile (fun c => c ≠ '{')
  let r := t.reverse.dropWhile (fun c => c ≠ '}')
  if r.isEmpty then none else some r.reverse

/-- The full normalizer `AIService.parseAIResponse`: trim, strip fences,
extract the brace-bounded candidate, `JSON.parse` it, validate. -/
def parseAIResponse (response : String) : Except NormError GenFields :=
  match extractCandidate
      (stripTrailingFence (stripLeadingFence (trimChars response.data))) with
  | none => .error .malformed
  | some cand =>
    match jsonParseChars cand with
    | some (.obj ms) => validateParsed ms
    | some _ => .error .malformed
    | none => .error .malformed

/-! ## Model registry (`ai.config.ts`) -/

/-- `AIModel` / ModelDescriptor from `ai.config.ts`. -/
structure AIModel where
  id : String
  name : String
  provider : String
  description : String
  capabilities : List String
  isDefault : Bool
deriving DecidableEq

/-- `AVAILABLE_MODELS` from `ai.config.ts`, verbatim. -/
def AVAILABLE_MODELS : List AIModel :=
  [{ id := "tngtech/deepseek-r1t2-chimera:free",
     name := "DeepSeek R1T2 Chimera",
     provider := "TNG Technology",
     description := "Advanced reasoning model with superior problem-solving capabilities",
     capabilities := ["text-generation", "reasoning", "analysis"],
     isDefault := true },
   { id := "z-ai/glm-4.5-air:free",
     name := "GLM 4.5 Air",
     provider := "Z-AI",
     description := "Lightweight model optimized for speed and efficiency",
     capabilities := ["text-generation", "fast-response"],
     isDefault := false }]

/-- `DEFAULT_MODEL = AVAILABLE_MODELS.find((m) => m.isDefault)?.id ||
AVAILABLE_MODELS[0].id` (the `||` falls through on an empty id). -/
def DEFAULT_MODEL : String :=
  let fallback := ((AVAILABLE_MODELS.head?).map (fun m => m.id)).getD ""
  match AVAILABLE_MODELS.find? (fun m => m.isDefault) with
  | some m => if m.id = "" then fallback else m.id
  | none => fallback

/-- `isValidModel` from `ai.config.ts`. -/
def isValidModel (modelId : String) : Bool :=
  AVAILABLE_MODELS.any (fun m => m.id = modelId)

/-- `getModelById` from `ai.config.ts`. -/
def getModelById (modelId : String) : Option AIModel :=
  AVAILABLE_MODELS.find? (fun m => m.id = modelId)

/-! ## Content store model (MongoDB + `Content` schema)

The current `Content` schema (the one the services compile against) carries
`aiModel`, `isFavorite` and timestamps.  The store is a list of documents
plus an id counter; `_id` is a natural number, `sort({createdAt: -1})` is a
stable merge sort (descending, insertion order on ties). -/

structure ContentRecord where
  id : Nat
  userId : String
  topic : String
  titles : List String
  description : String
  tags : List String
  thumbnailIdeas : List String
  scriptOutline : List String
  aiModel : String
  isFavorite : Bool
  createdAt : Nat
  updatedAt : Nat
deriving DecidableEq

structure Store where
  recs : List ContentRecord
  nextId : Nat
deriving DecidableEq

def emptyStore : Store := { recs := [], nextId := 0 }

/-- `sort({createdAt: -1})`: stable descending sort by creation time. -/
def byCreatedDesc (a b : ContentRecord) : Bool := b.createdAt ≤ a.createdAt

def sortByCreatedDesc (l : List ContentRecord) : List ContentRecord :=
  l.mergeSort byCreatedDesc

/-- MongoDB `cursor.limit(n)`: `0` means no limit, a negative argument
behaves like its absolute value (single batch). -/
def mongoLimit (limit : Int) (l : List ContentRecord) : List ContentRecord :=
  if limit = 0 then l else l.take limit.natAbs

mutual

/-- Mongoose's cast of an arbitrary parsed JSON value into a `String` schema
field (JavaScript `String(v)` semantics; the stored five content fields are
`[String]`/`String` columns). -/
def Json.castToString : Json → String
  | .null => "null"
  | .bool b => if b then "true" else "false"
  | .num lex => lex
  | .str s => s
  | .arr xs => String.intercalate "," (JsonArr.castList xs)
  | .obj _ => "[object Object]"

def JsonArr.castList : JsonArr → List String
  | .nil => []
  | .cons x xs => Json.castToString x :: JsonArr.castList xs

end

/-- JavaScript `modelId || DEFAULT_MODEL` (empty string is falsy). -/
def jsOrDefaultModel : Option String → String
  | some s => if s = "" then DEFAULT_MODEL else s
  | none => DEFAULT_MODEL

/-! ## `ContentService` (`content.service.ts`)

The external model call is parameterised by the raw text the model returned
(`aiResponse`), and "now" is an explicit parameter used for the
store-assigned timestamps. -/

/-- `ContentService.generateAndSaveContent`: resolve the model, run the
normalizer on the model's reply, and persist a new document.
`isFavorite := false` is modelled from the spec: the current `Content`
schema (with the `aiModel`/`isFavorite` columns the service compiles
against) is not in the snapshot, and spec §3 fixes the default:
"`isFavorite`: boolean flag, default false". -/
def generateAndSaveContent (st : Store) (userId topic : String)
    (modelId : Option String) (aiResponse : String) (now : Nat) :
    Except NormError (ContentRecord × Store) :=
  let selectedModel := jsOrDefaultModel modelId
  match parseAIResponse aiResponse with
  | .error e => .error e
  | .ok gen =>
    let doc : ContentRecord :=
      { id := st.nextId
        userId := userId
        topic := topic
        titles := gen.titles.castList
        description := gen.description
        tags := gen.tags.castList
        thumbnailIdeas := gen.thumbnailIdeas.castList
        scriptOutline := gen.scriptOutline.castList
        aiModel := selectedModel
        isFavorite := false
        createdAt := now
        updatedAt := now }
    .ok (doc, { recs := st.recs ++ [doc], nextId := st.nextId + 1 })

/-- `ContentService.getUserContent`:
`Content.find({userId}).sort({createdAt: -1}).limit(limit)`. -/
def getUserContent (st : Store) (userId : String) (limit : Int) :
    List ContentRecord :=
  mongoLimit limit (sortByCreatedDesc (st.recs.filter (fun r => r.userId = userId)))

/-- `ContentService.getContentById`: `Content.findOne({_id, userId})`. -/
def getContentById (st : Store) (contentId : Nat) (userId : String) :
    Option ContentRecord :=
  st.recs.find? (fun r => r.id = contentId ∧ r.userId = userId)

/-- `ContentService.deleteContent`: `Content.deleteOne({_id, userId})`;
returns whether `deletedCount > 0` together with the new store. -/
def deleteContent (st : Store) (contentId : Nat) (userId : String) :
    Bool × Store :=
  let p := fun (r : ContentRecord) => decide (r.id = contentId ∧ r.userId = userId)
  (st.recs.any p, { st with recs := st.recs.eraseP p })

/-- `ContentService.toggleFavorite`: find the owner's document, flip the
flag, save (which also bumps `updatedAt`). -/
def toggleFavorite (st : Store) (contentId : Nat) (userId : String)
    (now : Nat) : Option ContentRecord × Store :=
  match st.recs.find? (fun r => r.id = contentId ∧ r.userId = userId) with
  | none => (none, st)
  | some c =>
    let c' := { c with isFavorite := !c.isFavorite, updatedAt := now }
    (some c',
     { st with
       recs := st.recs.map (fun r => if r.id = contentId ∧ r.userId = userId then c' else r) })

/-- `ContentService.getFavorites`:
`Content.find({userId, isFavorite: true}).sort({createdAt: -1})`. -/
def getFavorites (st : Store) (userId : String) : List ContentRecord :=
  sortByCreatedDesc (st.recs.filter (fun r => r.userId = userId ∧ r.isFavorite))

/-- Containment of one character list in another (used to model
case-insensitive regex keyword matching on a document field). -/
def listContains (hay needle : List Char) : Bool :=
  match hay with
  | [] => needle.isEmpty
  | _ :: tl => needle.isPrefixOf hay || listContains tl needle

/-- JavaScript `toLowerCase` (ASCII range, the only range the backend's
heuristics and tests exercise), character by character. -/
def lowerStr (s : String) : String :=
  String.mk (s.data.map Char.toLower)

/-- Case-insensitive substring test: the meaning of
`new RegExp(keyword, 'i')` applied to a field, for keywords without regex
metacharacters (no claim under verification depends on metacharacter
behaviour). -/
def fieldMatches (field keyword : String) : Bool :=
  listContains (lowerStr field).data (lowerStr keyword).data

/-- A document matches the search when any of topic, titles, description,
tags, scriptOutline matches (array fields match if any element does, which
is MongoDB's semantics for a regex condition on an array field). -/
def recMatches (r : ContentRecord) (keyword : String) : Bool :=
  fieldMatches r.topic keyword ||
  r.titles.any (fun t => fieldMatches t keyword) ||
  fieldMatches r.description keyword ||
  r.tags.any (fun t => fieldMatches t keyword) ||
  r.scriptOutline.any (fun t => fieldMatches t keyword)

/-- `ContentService.searchContent`. -/
def searchContent (st : Store) (userId keyword : String) :
    List ContentRecord :=
  if keyword = "" ∨ (trimChars keyword.data).isEmpty then []
  else
    sortByCreatedDesc
      (st.recs.filter (fun r => r.userId = userId ∧ recMatches r keyword))

/-! ## Analytics (`analytics.service.ts`) -/

/-- JavaScript `Map.prototype.set`: overwrite in place, append if new. -/
def setEntry {κ ν : Type} [DecidableEq κ] (m : List (κ × ν)) (k : κ) (v : ν) :
    List (κ × ν) :=
  match m with
  | [] => [(k, v)]
  | (k', v') :: rest =>
    if k' = k then (k, v) :: rest else (k', v') :: setEntry rest k v

/-- JavaScript `Map.prototype.get` (as an `Option`). -/
def getEntry {κ ν : Type} [DecidableEq κ] : List (κ × ν) → κ → Option ν
  | [], _ => none
  | (k', v') :: rest, k => if k' = k then some v' else getEntry rest k

/-- Case-sensitive `String.prototype.includes`. -/
def strContains (hay needle : String) : Bool :=
  listContains hay.data needle.data

/-- `modelId.split('/').pop()`: the substring after the last `/` (the whole
string when there is none). -/
def afterLastSlash (cs : List Char) : List Char :=
  (cs.reverse.takeWhile (fun c => c ≠ '/')).reverse

/-- `.split(':')[0]`: the prefix before the first `:`. -/
def beforeColon (cs : List Char) : List Char :=
  cs.takeWhile (fun c => c ≠ ':')

/-- `AnalyticsService.extractModelName`: registry name when known, else the
provider-keyword heuristics, else the trailing path segment with any suffix
after `:` stripped (`split('/').pop()?.split(':')[0]`), else the id itself
(the `|| modelId` fallback when that segment is empty). -/
def extractModelName (modelId : String) : String :=
  match getModelById modelId with
  | some m => m.name
  | none =>
    if strContains modelId "deepseek" then "DeepSeek"
    else if strContains modelId "gemini" then "Gemini"
    else if strContains modelId "glm" then "GLM"
    else
      let seg := String.mk (beforeColon (afterLastSlash modelId.data))
      if seg = "" then modelId else seg

/-- One entry of the by-model distribution. -/
structure ModelStat where
  modelId : String
  modelName : String
  count : Nat
  percentage : Nat
deriving DecidableEq

/-- The `modelCounts` map built by `calculateContentByModel`'s forEach. -/
def countByModel (recs : List ContentRecord) : List (String × Nat) :=
  recs.foldl
    (fun m r => setEntry m r.aiModel ((getEntry m r.aiModel).getD 0 + 1)) []

/-- `Math.round((count / total) * 100)` as exact rational rounding (half
away from zero on the nonnegative inputs that occur); the float computation
agrees on every input the spec discusses. -/
def roundPct (count total : Nat) : Nat := (200 * count + total) / (2 * total)

/-- `AnalyticsService.calculateContentByModel`: count per model in encounter
order, project to stats, stable-sort descending by count. -/
def calculateContentByModel (recs : List ContentRecord) : List ModelStat :=
  let total := recs.length
  ((countByModel recs).map
    (fun e =>
      { modelId := e.1
        modelName := extractModelName e.1
        count := e.2
        percentage := roundPct e.2 total })).mergeSort
    (fun a b => b.count ≤ a.count)

/-- Milliseconds per day. -/
def dayMs : Nat := 86400000

/-- The UTC calendar day of a millisecond timestamp (stands for the
`YYYY-MM-DD` part of `toISOString`; lexicographic order on those strings is
exactly the order of these day numbers). -/
def dayOf (t : Nat) : Nat := t / dayMs

/-- The 30 pre-seeded zero buckets of `calculateTimeline`, in the source's
insertion order (today first, then backwards). -/
def initTimeline (now : Nat) : List (Nat × Nat) :=
  (List.range 30).foldl (fun m i => setEntry m (dayOf (now - i * dayMs)) 0) []

/-- The bucket-filling forEach of `calculateTimeline`: a record counts when
`createdDate >= thirtyDaysAgo`; its bucket is created if absent. -/
def fillTimeline (now : Nat) (recs : List ContentRecord) : List (Nat × Nat) :=
  let thirtyDaysAgo := now - 30 * dayMs
  recs.foldl
    (fun m r =>
      if thirtyDaysAgo ≤ r.createdAt then
        setEntry m (dayOf r.createdAt) ((getEntry m (dayOf r.createdAt)).getD 0 + 1)
      else m)
    (initTimeline now)

/-- `AnalyticsService.calculateTimeline`: fill the buckets, then sort
ascending by date. -/
def calculateTimeline (now : Nat) (recs : List ContentRecord) :
    List (Nat × Nat) :=
  (fillTimeline now recs).mergeSort (fun a b => a.1 ≤ b.1)

/-- `tag.toLowerCase().replace(/^#/, '')`: lower-case, strip one leading
hash. -/
def normalizeTag (tag : String) : String :=
  let lower := lowerStr tag
  match lower.data with
  | '#' :: rest => String.mk rest
  | _ => lower

/-- The `tagCounts` map of `generateTagCloud`, iterating records then tags. -/
def tagCounts (recs : List ContentRecord) : List (String × Nat) :=
  recs.foldl
    (fun m r =>
      r.tags.foldl
        (fun m tag =>
          let n := normalizeTag tag
          setEntry m n ((getEntry m n).getD 0 + 1))
        m)
    []

/-- `AnalyticsService.generateTagCloud`: count normalized tags, stable-sort
descending by count, take the top 20. -/
def generateTagCloud (recs : List ContentRecord) : List (String × Nat) :=
  ((tagCounts recs).mergeSort (fun a b => b.2 ≤ a.2)).take 20

/-! ## Controller flows (`content.controller.ts`) -/

/-- Classified controller-level failures: `badTopic` and `badModel` are the
400 validation errors, `unauthorized` the 401, `generationFailed` the
5xx surfaced from the generation pipeline. -/
inductive ApiError where
  | badTopic : ApiError
  | badModel : ApiError
  | unauthorized : ApiError
  | generationFailed (e : NormError) : ApiError
deriving DecidableEq

instance {ε α : Type} [DecidableEq ε] [DecidableEq α] :
    DecidableEq (Except ε α) := fun a b =>
  match a, b with
  | .error e, .error e' => decidable_of_iff (e = e') (by simp)
  | .error _, .ok _ => isFalse (fun h => by cases h)
  | .ok _, .error _ => isFalse (fun h => by cases h)
  | .ok x, .ok y => decidable_of_iff (x = y) (by simp)

/-- Result of one `POST /content/generate` request: the controller outcome,
the store afterwards, and how many external model calls were made. -/
structure GenerateOutcome where
  result : Except ApiError ContentRecord
  store : Store
  aiCalls : Nat
deriving DecidableEq

/-- JavaScript truthiness of the optional `model` body field. -/
def jsTruthyStr : Option String → Bool
  | some s => s ≠ ""
  | none => false

/-- `ContentController.generateContent`: topic check, model check (guarded
by the model's truthiness), auth check, then generate-and-save.  A missing
or non-string topic is `none`. -/
def generateContentFlow (st : Store) (auth : Option String)
    (topic : Option String) (model : Option String) (aiResponse : String)
    (now : Nat) : GenerateOutcome :=
  match topic with
  | none => ⟨.error .badTopic, st, 0⟩
  | some t =>
    if (trimChars t.data).isEmpty then ⟨.error .badTopic, st, 0⟩
    else if jsTruthyStr model ∧ ¬ isValidModel (model.getD "") then
      ⟨.error .badModel, st, 0⟩
    else
      match auth with
      | none => ⟨.error .unauthorized, st, 0⟩
      | some userId =>
        let selectedModel := jsOrDefaultModel model
        match generateAndSaveContent st userId (String.mk (trimChars t.data))
            (some selectedModel) aiResponse now with
        | .error e => ⟨.error (.generationFailed e), st, 1⟩
        | .ok (doc, st') => ⟨.ok doc, st', 1⟩

/-- JavaScript `parseInt(s)` (radix auto-detection: leading whitespace, an
optional sign, then `0x`/`0X` hex digits or decimal digits; no digits means
`NaN`, modelled as `none`). -/
def parseIntJS (s : String) : Option Int :=
  let cs := s.data.dropWhile isTrimWs
  let (neg, cs1) :=
    match cs with
    | '-' :: r => (true, r)
    | '+' :: r => (false, r)
    | _ => (false, cs)
  let digitsVal : List Nat → Nat := fun ds => ds.foldl (fun a d => a * 10 + d) 0
  let hexDigitsVal : List Nat → Nat := fun ds => ds.foldl (fun a d => a * 16 + d) 0
  let mk : Nat → Int := fun n => if neg then -(n : Int) else (n : Int)
  match cs1 with
  | '0' :: x :: rest =>
    if x = 'x' ∨ x = 'X' then
      let ds := rest.takeWhile (fun c => (hexVal c).isSome)
      if ds.isEmpty then none
      else some (mk (hexDigitsVal (ds.filterMap hexVal)))
    else
      let ds := cs1.takeWhile isDigit
      some (mk (digitsVal (ds.map (fun c => c.toNat - '0'.toNat))))
  | _ =>
    let ds := cs1.takeWhile isDigit
    if ds.isEmpty then none
    else some (mk (digitsVal (ds.map (fun c => c.toNat - '0'.toNat))))

/-- `parseInt(req.query.limit as string) || 10`: an absent parameter parses
as `NaN` (falsy), and a parsed `0` (or `-0`) is falsy too. -/
def effectiveLimit (limitParam : Option String) : Int :=
  match limitParam with
  | none => 10
  | some s =>
    match parseIntJS s with
    | none => 10
    | some v => if v = 0 then 10 else v

/-- `ContentController.getContentHistory`: auth check, limit parsing, then
the service query. -/
def getContentHistoryFlow (st : Store) (auth : Option String)
    (limitParam : Option String) : Except ApiError (List ContentRecord) :=
  match auth with
  | none => .error .unauthorized
  | some userId => .ok (getUserContent st userId (effectiveLimit limitParam))

/-- List of strings as a JSON array value. -/
def jsonArrOfStrings : List String → JsonArr
  | [] => .nil
  | s :: rest => .cons (.str s) (jsonArrOfStrings rest)

/-- The `data` object of the 201 response built by
`ContentController.generateContent` (source lines: the `res.status(201)`
payload): exactly the five content fields plus `aiModel`. -/
def generateResponseData (r : ContentRecord) : JsonObj :=
  .cons "titles" (.arr (jsonArrOfStrings r.titles))
    (.cons "description" (.str r.description)
      (.cons "tags" (.arr (jsonArrOfStrings r.tags))
        (.cons "thumbnailIdeas" (.arr (jsonArrOfStrings r.thumbnailIdeas))
          (.cons "scriptOutline" (.arr (jsonArrOfStrings r.scriptOutline))
            (.cons "aiModel" (.str r.aiModel) .nil)))))

/-- Modelled from the spec: §4.3 "returns the persisted record (including
assigned id and timestamps)" — the `data` payload the spec says a successful
generate returns: the full persisted record. -/
def specGenerateResponseData (r : ContentRecord) : JsonObj :=
  .cons "id" (.num (toString r.id))
    (.cons "userId" (.str r.userId)
      (.cons "topic" (.str r.topic)
        (.cons "titles" (.arr (jsonArrOfStrings r.titles))
          (.cons "description" (.str r.description)
            (.cons "tags" (.arr (jsonArrOfStrings r.tags))
              (.cons "thumbnailIdeas" (.arr (jsonArrOfStrings r.thumbnailIdeas))
                (.cons "scriptOutline" (.arr (jsonArrOfStrings r.scriptOutline))
                  (.cons "aiModel" (.str r.aiModel)
                    (.cons "isFavorite" (.bool r.isFavorite)
                      (.cons "createdAt" (.num (toString r.createdAt))
                        (.cons "updatedAt" (.num (toString r.updatedAt)) .nil)))))))))))


/-! ## Sample data for witnesses and counterexamples -/

/-- A well-formed five-field model reply. -/
def sampleAIResponse : String :=
  "\x7b\"titles\": [\"t1\"], \"description\": \"a desc\", \"tags\": [\"g1\"], \"thumbnailIdeas\": [\"i1\"], \"scriptOutline\": [\"s1\"]\x7d"

/-- The document `generateContentFlow emptyStore (some "user_A") (some "cats")
none sampleAIResponse 1000` persists. -/
def sampleRecord : ContentRecord :=
  { id := 0
    userId := "user_A"
    topic := "cats"
    titles := ["t1"]
    description := "a desc"
    tags := ["g1"]
    thumbnailIdeas := ["i1"]
    scriptOutline := ["s1"]
    aiModel := "tngtech/deepseek-r1t2-chimera:free"
    isFavorite := false
    createdAt := 1000
    updatedAt := 1000 }

/-! ## Helper lemmas -/

theorem byCreatedDesc_trans (a b c : ContentRecord) :
    byCreatedDesc a b = true → byCreatedDesc b c = true →
    byCreatedDesc a c = true := by
  simp only [byCreatedDesc, decide_eq_true_eq]
  omega

theorem byCreatedDesc_total (a b : ContentRecord) :
    (byCreatedDesc a b || byCreatedDesc b a) = true := by
  simp only [byCreatedDesc, Bool.or_eq_true, decide_eq_true_eq]
  omega

/-- A record that does not satisfy the deletion predicate survives
`deleteOne`. -/
theorem mem_eraseP_of_neg {α : Type} {p : α → Bool} {r : α} {l : List α}
    (h : r ∈ l) (hp : p r = false) : r ∈ l.eraseP p := by
  induction l with
  | nil => cases h
  | cons a tl ih =>
    rw [List.eraseP_cons]
    rcases List.mem_cons.mp h with rfl | htl
    · rw [hp]
      exact List.mem_cons_self _ _
    · cases hpa : p a with
      | true => simpa [hpa] using htl
      | false => simpa [hpa] using Or.inr (ih htl)

/-- Membership in a descending-sorted list is membership in the input. -/
theorem mem_of_mem_sortByCreatedDesc {r : ContentRecord}
    {l : List ContentRecord} (h : r ∈ sortByCreatedDesc l) : r ∈ l :=
  (List.mergeSort_perm l byCreatedDesc).mem_iff.mp h

/-- Membership after a MongoDB limit is membership before it. -/
theorem mem_of_mem_mongoLimit {r : ContentRecord} {n : Int}
    {l : List ContentRecord} (h : r ∈ mongoLimit n l) : r ∈ l := by
  unfold mongoLimit at h
  split at h
  · exact h
  · exact List.take_subset _ _ h

/-- If every other element is strictly older, the freshly appended record is
the head of the descending sort. -/
theorem sortByCreatedDesc_append_single {l₀ : List ContentRecord}
    {r : ContentRecord} (h : ∀ x ∈ l₀, x.createdAt < r.createdAt) :
    (sortByCreatedDesc (l₀ ++ [r])).take 1 = [r] := by
  have hperm := List.mergeSort_perm (l₀ ++ [r]) byCreatedDesc
  have hsorted :=
    List.sorted_mergeSort byCreatedDesc_trans byCreatedDesc_total (l₀ ++ [r])
  match hmatch : (l₀ ++ [r]).mergeSort byCreatedDesc with
  | [] =>
    exfalso
    rw [hmatch] at hperm
    have := hperm.length_eq
    simp at this
  | x₀ :: s' =>
    rw [hmatch] at hperm hsorted
    have hx₀mem : x₀ ∈ l₀ ++ [r] := hperm.mem_iff.mp (List.mem_cons_self _ _)
    have hrmem : r ∈ x₀ :: s' := hperm.mem_iff.mpr (by simp)
    rcases List.mem_append.mp hx₀mem with hx₀l | hx₀r
    · exfalso
      have hlt := h x₀ hx₀l
      rcases List.mem_cons.mp hrmem with heq | hr'
      · rw [heq] at hlt
        omega
      · have hpair := (List.pairwise_cons.mp hsorted).1 r hr'
        simp only [byCreatedDesc, decide_eq_true_eq] at hpair
        omega
    · have hx : x₀ = r := by simpa using hx₀r
      subst hx
      simp [sortByCreatedDesc, hmatch]

/-- The user's history after appending a fresh (strictly newest) record. -/
theorem getUserContent_append_fresh {st : Store} {r : ContentRecord}
    {userId : String}
    (hr : r.userId = userId)
    (h : ∀ x ∈ st.recs, x.userId = userId → x.createdAt < r.createdAt) :
    getUserContent { recs := st.recs ++ [r], nextId := st.nextId + 1 }
      userId 1 = [r] := by
  unfold getUserContent mongoLimit
  rw [if_neg (by decide)]
  have hfil :
      (st.recs ++ [r]).filter (fun x => decide (x.userId = userId)) =
        st.recs.filter (fun x => decide (x.userId = userId)) ++ [r] := by
    rw [List.filter_append]
    simp [hr]
  rw [hfil]
  have := @sortByCreatedDesc_append_single
    (st.recs.filter (fun x => decide (x.userId = userId))) r
    (fun x hx => by
      have hx' := List.mem_filter.mp hx
      exact h x hx'.1 (by simpa using hx'.2))
  simpa using this


/-! ## C10 — history limit parsing -/

/-- C10: the history limit is parsed with `parseInt`; an absent, non-numeric,
or zero limit falls back to the default 10 (so `limit=0` returns up to 10
records, never zero records), and any other parsed value — negative ones
included — is passed to the store query unchanged. -/
theorem c10_history_limit_parsing :
    (effectiveLimit none = 10) ∧
    (∀ s, parseIntJS s = none → effectiveLimit (some s) = 10) ∧
    (∀ s, parseIntJS s = some 0 → effectiveLimit (some s) = 10) ∧
    (∀ s v, parseIntJS s = some v → v ≠ 0 → effectiveLimit (some s) = v) ∧
    (∀ st u lp, getContentHistoryFlow st (some u) lp =
      .ok (getUserContent st u (effectiveLimit lp))) ∧
    (∀ st u, (getUserContent st u (effectiveLimit (some "0"))).length =
      min 10 (st.recs.filter (fun r => r.userId = u)).length) := by
  refine ⟨rfl, ?_, ?_, ?_, fun _ _ _ => rfl, ?_⟩
  · intro s h
    simp [effectiveLimit, h]
  · intro s h
    simp [effectiveLimit, h]
  · intro s v h hv
    simp [effectiveLimit, h, hv]
  · intro st u
    have hlim : effectiveLimit (some "0") = 10 := by decide
    rw [hlim]
    unfold getUserContent mongoLimit
    rw [if_neg (by decide)]
    rw [List.length_take]
    congr 1
    exact (List.mergeSort_perm _ byCreatedDesc).length_eq

/-- Witness for C10 at concrete inputs. -/
theorem c10_history_limit_parsing_witness :
    effectiveLimit (some "abc") = 10 ∧
    effectiveLimit (some "-5") = -5 ∧
    getContentHistoryFlow emptyStore (some "u") (some "-5") =
      .ok (getUserContent emptyStore "u" (effectiveLimit (some "-5"))) := by
  refine ⟨?_, ?_, ?_⟩
  · exact c10_history_limit_parsing.2.1 "abc" (by decide)
  · exact c10_history_limit_parsing.2.2.2.1 "-5" (-5) (by decide) (by decide)
  · exact c10_history_limit_parsing.2.2.2.2.1 emptyStore "u" (some "-5")

/-! ## C5 — unknown model rejected before the external call -/

/-- C5 (amended): a supplied NON-EMPTY model id absent from the registry
fails with the 400 `badModel` validation error before the external service
is invoked — zero calls, store unchanged; a registry id, or an omitted
model, never produces `badModel`.  (An empty-string model id is falsy in
JavaScript and is treated as omitted — see the counterexample.) -/
theorem c5_unknown_model_fail_fast :
    (∀ st auth t m resp now, m ≠ "" → isValidModel m = false →
      (trimChars t.data).isEmpty = false →
      generateContentFlow st auth (some t) (some m) resp now =
        ⟨.error .badModel, st, 0⟩) ∧
    (∀ st auth topic m resp now, isValidModel m = true →
      (generateContentFlow st auth topic (some m) resp now).result ≠
        .error .badModel) ∧
    (∀ st auth topic resp now,
      (generateContentFlow st auth topic none resp now).result ≠
        .error .badModel) := by
  refine ⟨?_, ?_, ?_⟩
  · intro st auth t m resp now hm hv ht
    simp only [generateContentFlow]
    rw [if_neg (by simp [ht])]
    rw [if_pos ⟨by simpa [jsTruthyStr] using hm, by simp [hv]⟩]
  · intro st auth topic m resp now hv
    rcases topic with _ | t
    · simp [generateContentFlow]
    · simp only [generateContentFlow]
      by_cases h1 : (trimChars t.data).isEmpty
      · simp [h1]
      · rw [if_neg h1, if_neg (by simp [hv])]
        rcases auth with _ | u
        · simp
        · rcases hgen : generateAndSaveContent st u (String.mk (trimChars t.data))
              (some (jsOrDefaultModel (some m))) resp now with e | p
          · simp [hgen]
          · simp [hgen]
  · intro st auth topic resp now
    rcases topic with _ | t
    · simp [generateContentFlow]
    · simp only [generateContentFlow]
      by_cases h1 : (trimChars t.data).isEmpty
      · simp [h1]
      · rw [if_neg h1, if_neg (by simp [jsTruthyStr])]
        rcases auth with _ | u
        · simp
        · rcases hgen : generateAndSaveContent st u (String.mk (trimChars t.data))
              (some (jsOrDefaultModel none)) resp now with e | p
          · simp [hgen]
          · simp [hgen]

/-- Witness for C5 at concrete inputs: the unknown id `"not-a-real-model"`
is rejected with zero external calls and an unchanged store. -/
theorem c5_unknown_model_fail_fast_witness :
    generateContentFlow emptyStore (some "user_A") (some "cats")
      (some "not-a-real-model") sampleAIResponse 1000 =
      ⟨.error .badModel, emptyStore, 0⟩ :=
  c5_unknown_model_fail_fast.1 emptyStore (some "user_A") "cats"
    "not-a-real-model" sampleAIResponse 1000 (by decide) (by decide) (by decide)

/-- Counterexample to C5 as stated: the empty string is a model identifier
that is not in the registry, yet the request does not fail — the external
model service is called once and a record is persisted (the JavaScript
falsy check `if (model && !isValidModel(model))` skips empty strings). -/
theorem c5_counterexample :
    isValidModel "" = false ∧
    (generateContentFlow emptyStore (some "user_A") (some "cats") (some "")
        sampleAIResponse 1000).aiCalls = 1 ∧
    (generateContentFlow emptyStore (some "user_A") (some "cats") (some "")
        sampleAIResponse 1000).result = .ok sampleRecord ∧
    (generateContentFlow emptyStore (some "user_A") (some "cats") (some "")
        sampleAIResponse 1000).store.recs = [sampleRecord] := by
  refine ⟨by decide, ?_, ?_, ?_⟩ <;> rfl

/-! ## C2 — tenant isolation -/

/-- C2: a record owned by `A` is never returned by get/list/search/favorites
performed as a different identity `B`, and a delete as `B` leaves it in the
store: every store query filters by the caller's `userId`. -/
theorem c2_tenant_isolation :
    ∀ (st : Store) (A B : String) (r : ContentRecord) (cid : Nat)
      (kw : String) (n : Int),
      r ∈ st.recs → r.userId = A → A ≠ B →
      getContentById st cid B ≠ some r ∧
      r ∉ getUserContent st B n ∧
      r ∉ searchContent st B kw ∧
      r ∉ getFavorites st B ∧
      r ∈ (deleteContent st cid B).2.recs := by
  intro st A B r cid kw n hmem hA hAB
  have hBne : r.userId ≠ B := by rw [hA]; exact hAB
  refine ⟨?_, ?_, ?_, ?_, ?_⟩
  · intro h
    have hfind := List.find?_some h
    simp only [decide_eq_true_eq] at hfind
    exact hBne hfind.2
  · intro h
    have h1 := mem_of_mem_sortByCreatedDesc (mem_of_mem_mongoLimit h)
    have h2 := (List.mem_filter.mp h1).2
    simp only [decide_eq_true_eq] at h2
    exact hBne h2
  · intro h
    unfold searchContent at h
    split at h
    · cases h
    · have h1 := mem_of_mem_sortByCreatedDesc h
      have h2 := (List.mem_filter.mp h1).2
      simp only [decide_eq_true_eq] at h2
      exact hBne h2.1
  · intro h
    have h1 := mem_of_mem_sortByCreatedDesc h
    have h2 := (List.mem_filter.mp h1).2
    simp only [decide_eq_true_eq] at h2
    exact hBne h2.1
  · exact mem_eraseP_of_neg hmem (by simp [hBne])

/-- Witness for C2 at concrete inputs. -/
theorem c2_tenant_isolation_witness :
    getContentById { recs := [sampleRecord], nextId := 1 } 0 "user_B" ≠
        some sampleRecord ∧
    sampleRecord ∉ getUserContent { recs := [sampleRecord], nextId := 1 }
        "user_B" 10 ∧
    sampleRecord ∈
      (deleteContent { recs := [sampleRecord], nextId := 1 } 0 "user_B").2.recs := by
  have h := c2_tenant_isolation { recs := [sampleRecord], nextId := 1 }
    "user_A" "user_B" sampleRecord 0 "cats" 10 (by decide) (by decide)
    (by decide)
  exact ⟨h.1, h.2.1, h.2.2.2.2⟩


/-- Characterization of the generate flow once the request passes topic,
model and auth validation. -/
theorem generateContentFlow_eq (st : Store) (auth : Option String)
    (t : String) (model : Option String) (resp : String) (now : Nat)
    (h1 : (trimChars t.data).isEmpty = false)
    (h2 : ¬ (jsTruthyStr model = true ∧ ¬ isValidModel (model.getD "") = true))
    (u : String) (hauth : auth = some u) :
    generateContentFlow st auth (some t) model resp now =
      match generateAndSaveContent st u (String.mk (trimChars t.data))
          (some (jsOrDefaultModel model)) resp now with
      | .error e => ⟨.error (.generationFailed e), st, 1⟩
      | .ok (doc, st') => ⟨.ok doc, st', 1⟩ := by
  subst hauth
  simp only [generateContentFlow]
  rw [if_neg (by simp [h1]), if_neg h2]

/-! ## C6 — what a successful generate returns -/

/-- C6 (amended): on success the service hands the controller the persisted
record — store-assigned id and both timestamps included and the record is in
the store — but the controller's 201 response `data` carries only the five
content fields plus `aiModel`; it has no `id`, `createdAt` or `updatedAt`
member. -/
theorem c6_generate_returns_projection :
    ∀ st auth topic model resp now r,
      (generateContentFlow st auth topic model resp now).result = .ok r →
      r ∈ (generateContentFlow st auth topic model resp now).store.recs ∧
      r.id = st.nextId ∧ r.createdAt = now ∧ r.updatedAt = now ∧
      (generateResponseData r).get "id" = none ∧
      (generateResponseData r).get "createdAt" = none ∧
      (generateResponseData r).get "updatedAt" = none ∧
      (generateResponseData r).get "titles" =
        some (.arr (jsonArrOfStrings r.titles)) ∧
      (generateResponseData r).get "description" = some (.str r.description) ∧
      (generateResponseData r).get "tags" =
        some (.arr (jsonArrOfStrings r.tags)) ∧
      (generateResponseData r).get "thumbnailIdeas" =
        some (.arr (jsonArrOfStrings r.thumbnailIdeas)) ∧
      (generateResponseData r).get "scriptOutline" =
        some (.arr (jsonArrOfStrings r.scriptOutline)) ∧
      (generateResponseData r).get "aiModel" = some (.str r.aiModel) := by
  intro st auth topic model resp now r hok
  have hmain :
      r ∈ (generateContentFlow st auth topic model resp now).store.recs ∧
        r.id = st.nextId ∧ r.createdAt = now ∧ r.updatedAt = now := by
    rcases topic with _ | t
    · simp [generateContentFlow] at hok
    · by_cases h1 : (trimChars t.data).isEmpty
      · simp only [generateContentFlow] at hok
        rw [if_pos h1] at hok
        simp at hok
      · by_cases h2 : jsTruthyStr model = true ∧
            ¬ isValidModel (model.getD "") = true
        · simp only [generateContentFlow] at hok
          rw [if_neg (by simpa using h1), if_pos h2] at hok
          simp at hok
        · rcases auth with _ | u
          · simp only [generateContentFlow] at hok
            rw [if_neg (by simpa using h1), if_neg h2] at hok
            simp at hok
          · have heq := generateContentFlow_eq st (some u) t model resp now
              (by simpa using h1) h2 u rfl
            rw [heq] at hok ⊢
            rcases hgen : generateAndSaveContent st u
                (String.mk (trimChars t.data))
                (some (jsOrDefaultModel model)) resp now with e | ⟨doc, st'⟩
            · rw [hgen] at hok
              simp at hok
            · rw [hgen] at hok
              have hdr : doc = r := by simpa using hok
              have hgoal : doc ∈ st'.recs ∧ doc.id = st.nextId ∧
                  doc.createdAt = now ∧ doc.updatedAt = now := by
                unfold generateAndSaveContent at hgen
                rcases hp : parseAIResponse resp with e' | g
                · rw [hp] at hgen
                  simp at hgen
                · rw [hp] at hgen
                  simp only [Except.ok.injEq, Prod.mk.injEq] at hgen
                  obtain ⟨hdoc, hst⟩ := hgen
                  rw [← hst, ← hdoc]
                  exact ⟨by simp, rfl, rfl, rfl⟩
              rw [hdr] at hgoal
              exact hgoal
  exact ⟨hmain.1, hmain.2.1, hmain.2.2.1, hmain.2.2.2, rfl, rfl, rfl, rfl,
    rfl, rfl, rfl, rfl, rfl⟩

/-- Witness for C6 at concrete inputs. -/
theorem c6_generate_returns_projection_witness :
    sampleRecord ∈ (generateContentFlow emptyStore (some "user_A")
        (some "cats") none sampleAIResponse 1000).store.recs ∧
    (generateResponseData sampleRecord).get "id" = none := by
  have h := c6_generate_returns_projection emptyStore (some "user_A")
    (some "cats") none sampleAIResponse 1000 sampleRecord (by rfl)
  exact ⟨h.1, h.2.2.2.2.1⟩

/-- Counterexample to C6 as stated: the concrete successful generate returns
`sampleRecord` from the service, but the HTTP `data` payload is not the
persisted record — it differs from the spec's full-record payload and lacks
the `id` and `createdAt` members entirely. -/
theorem c6_counterexample :
    (generateContentFlow emptyStore (some "user_A") (some "cats") none
        sampleAIResponse 1000).result = .ok sampleRecord ∧
    (generateResponseData sampleRecord).get "id" = none ∧
    (generateResponseData sampleRecord).get "createdAt" = none ∧
    generateResponseData sampleRecord ≠ specGenerateResponseData sampleRecord := by
  refine ⟨rfl, rfl, rfl, by decide⟩


/-! ## C1 — end-to-end generate with default model, then history -/

/-- The parsed fields of `sampleAIResponse`. -/
def sampleGenFields : GenFields :=
  { titles := .cons (.str "t1") .nil
    description := "a desc"
    tags := .cons (.str "g1") .nil
    thumbnailIdeas := .cons (.str "i1") .nil
    scriptOutline := .cons (.str "s1") .nil }

/-- C1: an authenticated generate with a non-empty (trimmed) topic and no
model id uses the registry default (`DEFAULT_MODEL`, the id of the
registry's `isDefault` entry); on a normalizer success a record is
persisted with that topic, `aiModel = DEFAULT_MODEL` and
`isFavorite = false`, and — the new record being strictly newest — a
history query with limit 1 returns exactly that record. -/
theorem c1_generate_default_then_history :
    ∀ (st : Store) (userId topic aiResponse : String) (now : Nat)
      (g : GenFields),
      parseAIResponse aiResponse = .ok g →
      trimChars topic.data = topic.data →
      topic ≠ "" →
      (∀ x ∈ st.recs, x.userId = userId → x.createdAt < now) →
      ∃ r st',
        generateContentFlow st (some userId) (some topic) none aiResponse now
            = ⟨.ok r, st', 1⟩ ∧
        r.topic = topic ∧
        r.aiModel = DEFAULT_MODEL ∧
        (AVAILABLE_MODELS.find? (fun m => m.isDefault)).map (fun m => m.id)
            = some DEFAULT_MODEL ∧
        r.isFavorite = false ∧
        r ∈ st'.recs ∧
        getUserContent st' userId 1 = [r] := by
  intro st userId topic aiResponse now g hparse htrim htop hfresh
  have hdata : topic.data ≠ [] := by
    intro h
    apply htop
    cases topic
    simp_all
  have hne : (trimChars topic.data).isEmpty = false := by
    rw [htrim]
    simpa using hdata
  have hmk : String.mk (trimChars topic.data) = topic := by
    rw [htrim]
  let doc : ContentRecord :=
    { id := st.nextId, userId := userId, topic := topic,
      titles := g.titles.castList, description := g.description,
      tags := g.tags.castList,
      thumbnailIdeas := g.thumbnailIdeas.castList,
      scriptOutline := g.scriptOutline.castList,
      aiModel := DEFAULT_MODEL, isFavorite := false,
      createdAt := now, updatedAt := now }
  refine ⟨doc, { recs := st.recs ++ [doc], nextId := st.nextId + 1 },
         ?_, rfl, rfl, by decide, rfl, by simp, ?_⟩
  · rw [generateContentFlow_eq st (some userId) topic none aiResponse now hne
      (by simp [jsTruthyStr]) userId rfl]
    rw [hmk]
    unfold generateAndSaveContent
    rw [hparse]
    rfl
  · exact getUserContent_append_fresh rfl hfresh

/-- Witness for C1 at concrete inputs. -/
theorem c1_generate_default_then_history_witness :
    getUserContent (generateContentFlow emptyStore (some "user_A")
        (some "cats") none sampleAIResponse 1000).store "user_A" 1 =
      [sampleRecord] := by
  obtain ⟨r, st', heq, -, -, -, -, -, hhist⟩ :=
    c1_generate_default_then_history emptyStore "user_A" "cats"
      sampleAIResponse 1000 sampleGenFields (by rfl) (by decide) (by decide)
      (by simp [emptyStore])
  have hr : r = sampleRecord := by
    have h1 : (generateContentFlow emptyStore (some "user_A") (some "cats")
        none sampleAIResponse 1000).result = .ok r := by rw [heq]
    have h2 : (generateContentFlow emptyStore (some "user_A") (some "cats")
        none sampleAIResponse 1000).result = .ok sampleRecord := rfl
    rw [h1] at h2
    exact Except.ok.inj h2
  rw [heq]
  rw [hhist, hr]

/-! ## C4 — normalizer failure classification -/

/-- Spec wording: "a sequence with length ≥ 1". -/
def isSeq1 (v : Option Json) : Prop := ∃ x xs, v = some (.arr (.cons x xs))

/-- Spec wording: "a non-blank string". -/
def isNonBlankStr (v : Option Json) : Prop :=
  ∃ s, v = some (.str s) ∧ trimChars s.data ≠ []

theorem checkArr_eq_error (f : String) (v : Option Json) (h : ¬ isSeq1 v) :
    checkArr f v = .error (.invalidField f) := by
  cases v with
  | none => rfl
  | some j =>
    cases j with
    | arr a =>
      cases a with
      | nil => rfl
      | cons x xs => exact absurd ⟨x, xs, rfl⟩ h
    | null => rfl
    | bool b => rfl
    | num n => rfl
    | str s => rfl
    | obj o => rfl

theorem checkDesc_eq_error (v : Option Json) (h : ¬ isNonBlankStr v) :
    checkDesc v = .error (.invalidField "description") := by
  cases v with
  | none => rfl
  | some j =>
    cases j with
    | str s =>
      by_cases ht : trimChars s.data = []
      · simp [checkDesc, ht]
      · exact absurd ⟨s, rfl, ht⟩ h
    | null => rfl
    | bool b => rfl
    | num n => rfl
    | arr a => rfl
    | obj o => rfl

/-- The validator succeeds exactly on five truthy fields that are non-empty
sequences resp. a non-blank string, and returns them unchanged. -/
theorem validateParsed_ok (ms : JsonObj) (ta ga ha sa : JsonArr) (d : String)
    (hti : ms.get "titles" = some (.arr ta)) (hta : ta ≠ .nil)
    (hga : ms.get "tags" = some (.arr ga)) (hgn : ga ≠ .nil)
    (hha : ms.get "thumbnailIdeas" = some (.arr ha)) (hhn : ha ≠ .nil)
    (hsa : ms.get "scriptOutline" = some (.arr sa)) (hsn : sa ≠ .nil)
    (hd : ms.get "description" = some (.str d)) (hdt : trimChars d.data ≠ []) :
    validateParsed ms = .ok ⟨ta, d, ga, ha, sa⟩ := by
  have hdne : d ≠ "" := by
    intro h
    subst h
    exact hdt rfl
  have h1 : propTruthy ms "titles" = true := by
    simp [propTruthy, hti, Json.truthy]
  have h2 : propTruthy ms "description" = true := by
    simp [propTruthy, hd, Json.truthy, hdne]
  have h3 : propTruthy ms "tags" = true := by
    simp [propTruthy, hga, Json.truthy]
  have h4 : propTruthy ms "thumbnailIdeas" = true := by
    simp [propTruthy, hha, Json.truthy]
  have h5 : propTruthy ms "scriptOutline" = true := by
    simp [propTruthy, hsa, Json.truthy]
  have hmiss : requiredFields.filter (fun f => ! propTruthy ms f) = [] := by
    simp [requiredFields, List.filter, h1, h2, h3, h4, h5]
  have hde : (trimChars d.data).isEmpty = false := by
    simpa [List.isEmpty_iff] using hdt
  rcases ta with _ | ⟨x1, xs1⟩
  · exact absurd rfl hta
  rcases ga with _ | ⟨x2, xs2⟩
  · exact absurd rfl hgn
  rcases ha with _ | ⟨x3, xs3⟩
  · exact absurd rfl hhn
  rcases sa with _ | ⟨x4, xs4⟩
  · exact absurd rfl hsn
  have e1 : checkArr "titles" (ms.get "titles") = .ok (.cons x1 xs1) := by
    rw [hti]
    rfl
  have e2 : checkArr "tags" (ms.get "tags") = .ok (.cons x2 xs2) := by
    rw [hga]
    rfl
  have e3 : checkArr "thumbnailIdeas" (ms.get "thumbnailIdeas") =
      .ok (.cons x3 xs3) := by
    rw [hha]
    rfl
  have e4 : checkArr "scriptOutline" (ms.get "scriptOutline") =
      .ok (.cons x4 xs4) := by
    rw [hsa]
    rfl
  have e5 : checkDesc (ms.get "description") = .ok d := by
    rw [hd]
    simp [checkDesc, hde]
  simp [validateParsed, hmiss, e1, e2, e3, e4, e5]
  rfl

/-- C4 (amended): a required key whose looked-up value is absent OR falsy
(JavaScript `!parsed[field]`: also `""`, `0`, `false`, `null`) makes the
normalizer fail with `IncompleteResponse` listing exactly those keys — so an
otherwise-complete object with `description = ""` yields `IncompleteResponse`
naming `description`, not `InvalidFieldType`; only when all five keys are
present and truthy do the type checks run, in source order
titles/tags/thumbnailIdeas/scriptOutline/description, failing with
`InvalidFieldType` naming the first offending field (e.g. `titles = []`). -/
theorem c4_validation_classification :
    ∀ ms : JsonObj,
      (requiredFields.filter (fun f => ! propTruthy ms f) ≠ [] →
        validateParsed ms = .error (.incomplete
          (requiredFields.filter (fun f => ! propTruthy ms f)))) ∧
      ((∀ f ∈ requiredFields, propTruthy ms f = true) →
        (¬ isSeq1 (ms.get "titles") →
          validateParsed ms = .error (.invalidField "titles")) ∧
        (isSeq1 (ms.get "titles") → ¬ isSeq1 (ms.get "tags") →
          validateParsed ms = .error (.invalidField "tags")) ∧
        (isSeq1 (ms.get "titles") → isSeq1 (ms.get "tags") →
          ¬ isSeq1 (ms.get "thumbnailIdeas") →
          validateParsed ms = .error (.invalidField "thumbnailIdeas")) ∧
        (isSeq1 (ms.get "titles") → isSeq1 (ms.get "tags") →
          isSeq1 (ms.get "thumbnailIdeas") →
          ¬ isSeq1 (ms.get "scriptOutline") →
          validateParsed ms = .error (.invalidField "scriptOutline")) ∧
        (isSeq1 (ms.get "titles") → isSeq1 (ms.get "tags") →
          isSeq1 (ms.get "thumbnailIdeas") → isSeq1 (ms.get "scriptOutline") →
          ¬ isNonBlankStr (ms.get "description") →
          validateParsed ms = .error (.invalidField "description"))) := by
  intro ms
  constructor
  · intro hne
    have : (requiredFields.filter (fun f => ! propTruthy ms f)).isEmpty
        = false := by
      simpa [List.isEmpty_iff] using hne
    simp [validateParsed, this]
  · intro hall
    have hmiss : requiredFields.filter (fun f => ! propTruthy ms f) = [] := by
      rw [List.filter_eq_nil_iff]
      intro f hf
      simp [hall f hf]
    refine ⟨?_, ?_, ?_, ?_, ?_⟩
    · intro hbad
      simp [validateParsed, hmiss, checkArr_eq_error "titles" _ hbad]
      rfl
    · rintro ⟨x1, xs1, hti⟩ hbad
      have e1 : checkArr "titles" (ms.get "titles") = .ok (.cons x1 xs1) := by
        rw [hti]
        rfl
      simp [validateParsed, hmiss, e1, checkArr_eq_error "tags" _ hbad]
      rfl
    · rintro ⟨x1, xs1, hti⟩ ⟨x2, xs2, hga⟩ hbad
      have e1 : checkArr "titles" (ms.get "titles") = .ok (.cons x1 xs1) := by
        rw [hti]
        rfl
      have e2 : checkArr "tags" (ms.get "tags") = .ok (.cons x2 xs2) := by
        rw [hga]
        rfl
      simp [validateParsed, hmiss, e1, e2,
        checkArr_eq_error "thumbnailIdeas" _ hbad]
      rfl
    · rintro ⟨x1, xs1, hti⟩ ⟨x2, xs2, hga⟩ ⟨x3, xs3, hha⟩ hbad
      have e1 : checkArr "titles" (ms.get "titles") = .ok (.cons x1 xs1) := by
        rw [hti]
        rfl
      have e2 : checkArr "tags" (ms.get "tags") = .ok (.cons x2 xs2) := by
        rw [hga]
        rfl
      have e3 : checkArr "thumbnailIdeas" (ms.get "thumbnailIdeas") =
          .ok (.cons x3 xs3) := by
        rw [hha]
        rfl
      simp [validateParsed, hmiss, e1, e2, e3,
        checkArr_eq_error "scriptOutline" _ hbad]
      rfl
    · rintro ⟨x1, xs1, hti⟩ ⟨x2, xs2, hga⟩ ⟨x3, xs3, hha⟩ ⟨x4, xs4, hsa⟩ hbad
      have e1 : checkArr "titles" (ms.get "titles") = .ok (.cons x1 xs1) := by
        rw [hti]
        rfl
      have e2 : checkArr "tags" (ms.get "tags") = .ok (.cons x2 xs2) := by
        rw [hga]
        rfl
      have e3 : checkArr "thumbnailIdeas" (ms.get "thumbnailIdeas") =
          .ok (.cons x3 xs3) := by
        rw [hha]
        rfl
      have e4 : checkArr "scriptOutline" (ms.get "scriptOutline") =
          .ok (.cons x4 xs4) := by
        rw [hsa]
        rfl
      simp [validateParsed, hmiss, e1, e2, e3, e4,
        checkDesc_eq_error _ hbad]
      rfl

/-- An otherwise-complete reply whose `description` is the empty string. -/
def descEmptyResponse : String :=
  "\x7b\"titles\": [\"t\"], \"description\": \"\", \"tags\": [\"g\"], \"thumbnailIdeas\": [\"i\"], \"scriptOutline\": [\"s\"]\x7d"

/-- The object `descEmptyResponse` parses to. -/
def descEmptyObj : JsonObj :=
  .cons "titles" (.arr (.cons (.str "t") .nil))
    (.cons "description" (.str "")
      (.cons "tags" (.arr (.cons (.str "g") .nil))
        (.cons "thumbnailIdeas" (.arr (.cons (.str "i") .nil))
          (.cons "scriptOutline" (.arr (.cons (.str "s") .nil)) .nil))))

/-- Witness for C4 at a concrete object: `titles = []` (otherwise complete
and truthy) fails with `InvalidFieldType` naming `titles`, and a genuinely
missing `tags` key is reported as `IncompleteResponse` naming exactly
`tags`. -/
theorem c4_validation_classification_witness :
    validateParsed
        (.cons "titles" (.arr .nil)
          (.cons "description" (.str "d")
            (.cons "tags" (.arr (.cons (.str "g") .nil))
              (.cons "thumbnailIdeas" (.arr (.cons (.str "i") .nil))
                (.cons "scriptOutline" (.arr (.cons (.str "s") .nil)) .nil)))))
      = .error (.invalidField "titles") ∧
    validateParsed
        (.cons "titles" (.arr (.cons (.str "t") .nil))
          (.cons "description" (.str "d")
            (.cons "thumbnailIdeas" (.arr (.cons (.str "i") .nil))
              (.cons "scriptOutline" (.arr (.cons (.str "s") .nil)) .nil))))
      = .error (.incomplete ["tags"]) := by
  constructor
  · exact ((c4_validation_classification _).2 (by decide)).1
      (by rintro ⟨x, xs, h⟩; cases h)
  · exact (c4_validation_classification _).1 (by decide)

/-- Counterexample to C4 as stated: `description` present but equal to `""`
is classified as a MISSING key (`IncompleteResponse` naming `description`),
not as `InvalidFieldType`, because the source's missing-key filter uses the
JavaScript falsy check `!parsed[field]`. -/
theorem c4_counterexample :
    jsonParse descEmptyResponse = some (.obj descEmptyObj) ∧
    descEmptyObj.get "description" = some (.str "") ∧
    (descEmptyObj.get "titles").isSome = true ∧
    (descEmptyObj.get "tags").isSome = true ∧
    (descEmptyObj.get "thumbnailIdeas").isSome = true ∧
    (descEmptyObj.get "scriptOutline").isSome = true ∧
    parseAIResponse descEmptyResponse = .error (.incomplete ["description"]) ∧
    parseAIResponse descEmptyResponse ≠ .error (.invalidField "description")
    := by
  refine ⟨by decide, by decide, by decide, by decide, by decide, by decide,
    by decide, by decide⟩

/-! ## C3 — normalizer round-trip on embedded JSON -/

theorem dropWhile_append_cons (w : Char → Bool) (a : List Char) (c : Char)
    (b : List Char) (hc : w c = false) :
    ∃ a', a'.Sublist a ∧ (a ++ c :: b).dropWhile w = a' ++ c :: b := by
  rw [List.dropWhile_append]
  by_cases h : (a.dropWhile w).isEmpty
  · refine ⟨[], List.nil_sublist a, ?_⟩
    simp [h, List.dropWhile_cons, hc]
  · refine ⟨a.dropWhile w, List.dropWhile_sublist w, ?_⟩
    simp [h]

/-- Trimming prose around a brace-delimited region keeps the region intact
and only shortens the prose. -/
theorem trim_shape (p mid s : List Char) (hp : '{' ∉ p) (hs : '}' ∉ s) :
    ∃ p' s', '{' ∉ p' ∧ '}' ∉ s' ∧
      trimChars (p ++ ('{' :: mid ++ ['}']) ++ s) =
        p' ++ ('{' :: mid ++ ['}']) ++ s' := by
  obtain ⟨p1, hp1sub, hstep1⟩ :=
    dropWhile_append_cons isTrimWs p '{' (mid ++ '}' :: s) (by decide)
  obtain ⟨s1, hs1sub, hstep2⟩ :=
    dropWhile_append_cons isTrimWs s.reverse '}'
      (mid.reverse ++ '{' :: p1.reverse) (by decide)
  refine ⟨p1, s1.reverse, fun hm => hp (hp1sub.subset hm),
    fun hm => hs ?_, ?_⟩
  · have : '}' ∈ s1 := by simpa using hm
    simpa using hs1sub.subset this
  · unfold trimChars
    rw [show p ++ ('{' :: mid ++ ['}']) ++ s = p ++ '{' :: (mid ++ '}' :: s)
      by simp]
    rw [hstep1]
    rw [show (p1 ++ '{' :: (mid ++ '}' :: s)).reverse =
      s.reverse ++ '}' :: (mid.reverse ++ '{' :: p1.reverse) by simp]
    rw [hstep2]
    simp

/-- Stripping a leading fence marker from prose before a `{` cannot consume
the `{`. -/
theorem stripLeadingFence_shape (a rest : List Char) (ha : '{' ∉ a) :
    ∃ a', '{' ∉ a' ∧ stripLeadingFence (a ++ '{' :: rest) = a' ++ '{' :: rest
    := by
  by_cases h3 : (a ++ '{' :: rest).take 3 = ['`', '`', '`']
  case neg =>
    exact ⟨a, ha, by simp only [stripLeadingFence, if_neg h3]⟩
  case pos =>
    have hlen3 : 3 ≤ a.length := by
      by_contra hlt
      push_neg at hlt
      have hmem : '{' ∈ (a ++ '{' :: rest).take 3 := by
        rw [List.take_append_eq_append_take,
          List.take_of_length_le (le_of_lt hlt)]
        refine List.mem_append.mpr (Or.inr ?_)
        rcases hn : 3 - a.length with _ | k
        · omega
        · simp [List.take_succ_cons]
      rw [h3] at hmem
      simp at hmem
    have hdrop : (a ++ '{' :: rest).drop 3 = a.drop 3 ++ '{' :: rest := by
      rw [List.drop_append_eq_append_drop, Nat.sub_eq_zero_of_le hlen3]
      rfl
    by_cases h4 : (((a ++ '{' :: rest).drop 3).take 4).map Char.toLower =
        ['j', 's', 'o', 'n']
    · have hlen4 : 4 ≤ (a.drop 3).length := by
        by_contra hlt
        push_neg at hlt
        have hmem : '{' ∈ ((a.drop 3) ++ '{' :: rest).take 4 := by
          rw [List.take_append_eq_append_take,
            List.take_of_length_le (le_of_lt hlt)]
          refine List.mem_append.mpr (Or.inr ?_)
          rcases hn : 4 - (a.drop 3).length with _ | k
          · omega
          · simp [List.take_succ_cons]
        have hmem2 : Char.toLower '{' ∈
            (((a.drop 3) ++ '{' :: rest).take 4).map Char.toLower :=
          List.mem_map_of_mem Char.toLower hmem
        rw [← hdrop, h4] at hmem2
        simp at hmem2
      have hdrop4 : ((a.drop 3) ++ '{' :: rest).drop 4 =
          (a.drop 3).drop 4 ++ '{' :: rest := by
        rw [List.drop_append_eq_append_drop, Nat.sub_eq_zero_of_le hlen4]
        rfl
      obtain ⟨a4, hsub, heq⟩ :=
        dropWhile_append_cons isTrimWs ((a.drop 3).drop 4) '{' rest (by decide)
      refine ⟨a4, ?_, ?_⟩
      · intro hm
        exact ha (List.drop_subset 3 a (List.drop_subset 4 _ (hsub.subset hm)))
      · simp only [stripLeadingFence, if_pos h3, hdrop, if_pos (hdrop ▸ h4),
          hdrop4, heq]
    · obtain ⟨a3, hsub, heq⟩ :=
        dropWhile_append_cons isTrimWs (a.drop 3) '{' rest (by decide)
      refine ⟨a3, ?_, ?_⟩
      · intro hm
        exact ha (List.drop_subset 3 a (hsub.subset hm))
      · simp only [stripLeadingFence, if_pos h3, hdrop, if_neg (hdrop ▸ h4),
          heq]

/-- Stripping a trailing fence marker from prose after a `}` cannot consume
the `}`. -/
theorem stripTrailingFence_shape (b s : List Char) (hs : '}' ∉ s) :
    ∃ s', '}' ∉ s' ∧
      stripTrailingFence (b ++ ['}'] ++ s) = b ++ ['}'] ++ s' := by
  have hrev : (b ++ ['}'] ++ s).reverse = s.reverse ++ '}' :: b.reverse := by
    simp
  by_cases h3 : (b ++ ['}'] ++ s).reverse.take 3 = ['`', '`', '`']
  case neg =>
    exact ⟨s, hs, by simp only [stripTrailingFence, if_neg h3]⟩
  case pos =>
    have hlen3 : 3 ≤ s.reverse.length := by
      by_contra hlt
      push_neg at hlt
      have hmem : '}' ∈ (b ++ ['}'] ++ s).reverse.take 3 := by
        rw [hrev, List.take_append_eq_append_take,
          List.take_of_length_le (le_of_lt hlt)]
        refine List.mem_append.mpr (Or.inr ?_)
        rcases hn : 3 - s.reverse.length with _ | k
        · omega
        · simp [List.take_succ_cons]
      rw [h3] at hmem
      simp at hmem
    have hdrop : (b ++ ['}'] ++ s).reverse.drop 3 =
        s.reverse.drop 3 ++ '}' :: b.reverse := by
      rw [hrev, List.drop_append_eq_append_drop, Nat.sub_eq_zero_of_le hlen3]
      rfl
    obtain ⟨s3, hsub, heq⟩ :=
      dropWhile_append_cons isTrimWs (s.reverse.drop 3) '}' b.reverse
        (by decide)
    refine ⟨s3.reverse, ?_, ?_⟩
    · intro hm
      have : '}' ∈ s3 := by simpa using hm
      have := hsub.subset this
      exact hs (by simpa using List.drop_subset 3 s.reverse this)
    · simp only [stripTrailingFence, if_pos h3, hdrop, heq]
      simp

/-- The brace extraction recovers exactly the brace-delimited region when
the prefix has no `{` and the suffix has no `}`. -/
theorem extractCandidate_shape (p mid s : List Char) (hp : '{' ∉ p)
    (hs : '}' ∉ s) :
    extractCandidate (p ++ ('{' :: mid ++ ['}']) ++ s) =
      some ('{' :: mid ++ ['}']) := by
  have h1 : (p ++ ('{' :: mid ++ ['}']) ++ s).dropWhile
      (fun c => c ≠ '{') = '{' :: (mid ++ '}' :: s) := by
    rw [show p ++ ('{' :: mid ++ ['}']) ++ s = p ++ '{' :: (mid ++ '}' :: s)
      by simp]
    rw [List.dropWhile_append]
    have hpnil : p.dropWhile (fun c => decide (c ≠ '{')) = [] := by
      rw [List.dropWhile_eq_nil_iff]
      intro x hx
      simp only [decide_eq_true_eq]
      intro hxe
      exact hp (hxe ▸ hx)
    simp [hpnil, List.dropWhile_cons]
    intro _ x hx hxe
    exact hp (hxe ▸ hx)
  have h2 : ('{' :: (mid ++ '}' :: s)).reverse.dropWhile
      (fun c => c ≠ '}') = '}' :: (mid.reverse ++ ['{']) := by
    rw [show ('{' :: (mid ++ '}' :: s)).reverse =
      s.reverse ++ '}' :: (mid.reverse ++ ['{']) by simp]
    rw [List.dropWhile_append]
    have hsnil : s.reverse.dropWhile (fun c => decide (c ≠ '}')) = [] := by
      rw [List.dropWhile_eq_nil_iff]
      intro x hx
      simp only [decide_eq_true_eq]
      intro hxe
      subst hxe
      exact hs (by simpa using hx)
    simp [hsnil, List.dropWhile_cons]
    intro _ x hx hxe
    subst hxe
    exact hs (by simpa using hx)
  simp only [extractCandidate, h1, h2]
  simp

/-- The normalizer on a brace-delimited JSON region embedded in prose: the
pipeline reduces to `JSON.parse` + validation of exactly that region. -/
theorem parseAIResponse_embedded (p mid s : List Char) (hp : '{' ∉ p)
    (hs : '}' ∉ s) :
    parseAIResponse (String.mk (p ++ ('{' :: mid ++ ['}']) ++ s)) =
      (match jsonParseChars ('{' :: mid ++ ['}']) with
       | some (.obj ms) => validateParsed ms
       | some _ => .error .malformed
       | none => .error .malformed) := by
  unfold parseAIResponse
  obtain ⟨p1, s1, hp1, hs1, htrim⟩ := trim_shape p mid s hp hs
  rw [show (String.mk (p ++ ('{' :: mid ++ ['}']) ++ s)).data =
    p ++ ('{' :: mid ++ ['}']) ++ s from rfl]
  rw [htrim]
  rw [show p1 ++ ('{' :: mid ++ ['}']) ++ s1 = p1 ++ '{' :: (mid ++ '}' :: s1)
    by simp]
  obtain ⟨p2, hp2, hlead⟩ := stripLeadingFence_shape p1 (mid ++ '}' :: s1) hp1
  rw [hlead]
  rw [show p2 ++ '{' :: (mid ++ '}' :: s1) =
    (p2 ++ '{' :: mid) ++ ['}'] ++ s1 by simp]
  obtain ⟨s2, hs2, htrail⟩ := stripTrailingFence_shape (p2 ++ '{' :: mid) s1 hs1
  rw [htrail]
  rw [show (p2 ++ '{' :: mid) ++ ['}'] ++ s2 =
    p2 ++ ('{' :: mid ++ ['}']) ++ s2 by simp]
  rw [extractCandidate_shape p2 mid s2 hp2 hs2]

/-- C3 (amended): a well-formed five-field JSON object region (brace
delimited), embedded in surrounding prose whose prefix contains no `{` and
whose suffix contains no `}` — Markdown fences, tagged or not, satisfy this
— is recovered by the Normalizer with exactly its five field values,
unchanged.  (Prose containing a brace can break the first-`{`/last-`}`
extraction — see the counterexample.) -/
theorem c3_normalizer_roundtrip :
    ∀ (p s mid : List Char) (ms : JsonObj) (ta ga ha sa : JsonArr)
      (d : String),
      '{' ∉ p → '}' ∉ s →
      jsonParseChars ('{' :: mid ++ ['}']) = some (.obj ms) →
      ms.get "titles" = some (.arr ta) → ta ≠ .nil →
      ms.get "tags" = some (.arr ga) → ga ≠ .nil →
      ms.get "thumbnailIdeas" = some (.arr ha) → ha ≠ .nil →
      ms.get "scriptOutline" = some (.arr sa) → sa ≠ .nil →
      ms.get "description" = some (.str d) → trimChars d.data ≠ [] →
      parseAIResponse (String.mk (p ++ ('{' :: mid ++ ['}']) ++ s)) =
        .ok ⟨ta, d, ga, ha, sa⟩ := by
  intro p s mid ms ta ga ha sa d hp hs hparse hti hta hga hgn hha hhn hsa
    hsn hd hdt
  rw [parseAIResponse_embedded p mid s hp hs, hparse]
  exact validateParsed_ok ms ta ga ha sa d hti hta hga hgn hha hhn hsa hsn
    hd hdt

/-- The object `sampleAIResponse` parses to. -/
def sampleObj : JsonObj :=
  .cons "titles" (.arr (.cons (.str "t1") .nil))
    (.cons "description" (.str "a desc")
      (.cons "tags" (.arr (.cons (.str "g1") .nil))
        (.cons "thumbnailIdeas" (.arr (.cons (.str "i1") .nil))
          (.cons "scriptOutline" (.arr (.cons (.str "s1") .nil)) .nil))))

/-- `sampleAIResponse` without its outer braces. -/
def sampleMid : List Char := (sampleAIResponse.data.drop 1).dropLast

/-- Witness for C3 at concrete inputs: the sample reply wrapped in a tagged
Markdown fence with prose. -/
theorem c3_normalizer_roundtrip_witness :
    parseAIResponse (String.mk (("Sure! here it is: ```json\n".data) ++
        ('{' :: sampleMid ++ ['}']) ++ ("\n``` hope you like it".data))) =
      .ok sampleGenFields :=
  c3_normalizer_roundtrip ("Sure! here it is: ```json\n".data)
    ("\n``` hope you like it".data) sampleMid sampleObj
    (.cons (.str "t1") .nil) (.cons (.str "g1") .nil)
    (.cons (.str "i1") .nil) (.cons (.str "s1") .nil) "a desc"
    (by decide) (by decide) (by decide) (by decide) (by decide) (by decide)
    (by decide) (by decide) (by decide) (by decide) (by decide) (by decide)
    (by decide)

/-- Counterexample to C3 as stated: the same well-formed five-field object
followed by prose that contains a `}` makes the normalizer fail with
`MalformedResponse` — the candidate region runs from the first `{` to the
LAST `}`, swallowing the prose. -/
theorem c3_counterexample :
    parseAIResponse sampleAIResponse = .ok sampleGenFields ∧
    parseAIResponse (String.mk (sampleAIResponse.data ++
        " trailing prose :)\x7d".data)) = .error .malformed := by
  exact ⟨rfl, rfl⟩

/-! ## Counter-map and stable-sort machinery -/

/-- One `Map` increment step of the counting pattern shared by
`calculateContentByModel` and `generateTagCloud`. -/
def bumpCount {κ : Type} [DecidableEq κ] (m : List (κ × Nat)) (x : κ) :
    List (κ × Nat) :=
  setEntry m x ((getEntry m x).getD 0 + 1)

/-- Counting occurrences of each key, first-encounter order. -/
def countFold {κ : Type} [DecidableEq κ] (xs : List κ) : List (κ × Nat) :=
  xs.foldl bumpCount []

/-- First-occurrence deduplication (the key order a JavaScript `Map`
produces). -/
def dedupFirst {κ : Type} [DecidableEq κ] (xs : List κ) : List κ :=
  xs.foldl (fun acc x => if x ∈ acc then acc else acc ++ [x]) []

section CounterLemmas

variable {κ ν : Type} [DecidableEq κ]

theorem getEntry_setEntry_self (m : List (κ × ν)) (k : κ) (v : ν) :
    getEntry (setEntry m k v) k = some v := by
  induction m with
  | nil => simp [setEntry, getEntry]
  | cons e tl ih =>
    obtain ⟨k', v'⟩ := e
    by_cases h : k' = k
    · subst h
      simp [setEntry, getEntry]
    · simp [setEntry, getEntry, h, ih]

theorem getEntry_setEntry_ne (m : List (κ × ν)) (k k' : κ) (v : ν)
    (h : k' ≠ k) : getEntry (setEntry m k v) k' = getEntry m k' := by
  induction m with
  | nil => simp [setEntry, getEntry, Ne.symm h]
  | cons e tl ih =>
    obtain ⟨k'', v''⟩ := e
    by_cases he : k'' = k
    · subst he
      simp [setEntry, getEntry, Ne.symm h]
    · simp [setEntry, getEntry, he, ih]

theorem setEntry_keys (m : List (κ × ν)) (k : κ) (v : ν) :
    (setEntry m k v).map Prod.fst =
      if k ∈ m.map Prod.fst then m.map Prod.fst
      else m.map Prod.fst ++ [k] := by
  induction m with
  | nil => simp [setEntry]
  | cons e tl ih =>
    obtain ⟨k', v'⟩ := e
    by_cases h : k' = k
    · subst h
      simp [setEntry]
    · simp only [setEntry, if_neg h, List.map_cons, ih]
      by_cases hm : k ∈ tl.map Prod.fst
      · simp [hm, Ne.symm h]
      · simp [hm, Ne.symm h]

theorem getEntry_eq_none_iff (m : List (κ × ν)) (k : κ) :
    getEntry m k = none ↔ k ∉ m.map Prod.fst := by
  induction m with
  | nil => simp [getEntry]
  | cons e tl ih =>
    obtain ⟨k', v'⟩ := e
    by_cases h : k' = k
    · subst h
      simp [getEntry]
    · simp [getEntry, h, ih, Ne.symm h]

theorem getEntry_mem {m : List (κ × ν)} {k : κ} {v : ν}
    (h : getEntry m k = some v) : (k, v) ∈ m := by
  induction m with
  | nil => cases h
  | cons e tl ih =>
    obtain ⟨k', v'⟩ := e
    by_cases he : k' = k
    · subst he
      simp [getEntry] at h
      simp [h]
    · simp [getEntry, he] at h
      exact List.mem_cons_of_mem _ (ih h)

theorem getEntry_of_mem_of_nodup {m : List (κ × ν)} {k : κ} {v : ν}
    (hn : (m.map Prod.fst).Nodup) (h : (k, v) ∈ m) :
    getEntry m k = some v := by
  induction m with
  | nil => cases h
  | cons e tl ih =>
    obtain ⟨k', v'⟩ := e
    rcases List.mem_cons.mp h with he | htl
    · obtain ⟨rfl, rfl⟩ := Prod.mk.injEq .. ▸ he
      simp_all [getEntry]
    · have hk : k' ≠ k := by
        intro he
        subst he
        exact (List.nodup_cons.mp (by simpa using hn)).1
          (List.mem_map_of_mem Prod.fst htl)
      simp [getEntry, hk, ih (by simpa using (List.nodup_cons.mp
        (by simpa using hn)).2) htl]

theorem countFold_aux_keys (xs : List κ) :
    ∀ m : List (κ × Nat),
      ((xs.foldl bumpCount m).map Prod.fst) =
        xs.foldl (fun acc x => if x ∈ acc then acc else acc ++ [x])
          (m.map Prod.fst) := by
  induction xs with
  | nil => intro m; rfl
  | cons x xs ih =>
    intro m
    simp only [List.foldl_cons]
    rw [ih (bumpCount m x)]
    congr 1
    rw [bumpCount, setEntry_keys]

theorem countFold_keys (xs : List κ) :
    (countFold xs).map Prod.fst = dedupFirst xs := by
  unfold countFold dedupFirst
  rw [countFold_aux_keys]
  rfl

theorem countFold_aux_val (xs : List κ) :
    ∀ (m : List (κ × Nat)) (k : κ),
      (getEntry (xs.foldl bumpCount m) k).getD 0 =
        (getEntry m k).getD 0 + xs.count k := by
  induction xs with
  | nil => intro m k; simp
  | cons x xs ih =>
    intro m k
    simp only [List.foldl_cons]
    rw [ih (bumpCount m x) k]
    by_cases h : x = k
    · subst h
      rw [show getEntry (bumpCount m x) x = some ((getEntry m x).getD 0 + 1)
        from getEntry_setEntry_self m x _]
      simp [List.count_cons]
      omega
    · rw [show getEntry (bumpCount m x) k = getEntry m k
        from getEntry_setEntry_ne m x k _ (fun he => h he.symm)]
      simp [List.count_cons, h]

theorem countFold_val (xs : List κ) (k : κ) :
    (getEntry (countFold xs) k).getD 0 = xs.count k := by
  unfold countFold
  rw [countFold_aux_val]
  simp [getEntry]

theorem mem_dedupFirst_aux (xs : List κ) :
    ∀ (acc : List κ) (x : κ),
      x ∈ xs.foldl (fun acc x => if x ∈ acc then acc else acc ++ [x]) acc ↔
        x ∈ acc ∨ x ∈ xs := by
  induction xs with
  | nil => intro acc x; simp
  | cons y xs ih =>
    intro acc x
    simp only [List.foldl_cons]
    rw [ih]
    by_cases hy : y ∈ acc
    · simp only [if_pos hy]
      constructor
      · rintro (h | h)
        · exact Or.inl h
        · exact Or.inr (List.mem_cons_of_mem _ h)
      · rintro (h | h)
        · exact Or.inl h
        · rcases List.mem_cons.mp h with rfl | h
          · exact Or.inl hy
          · exact Or.inr h
    · simp only [if_neg hy]
      constructor
      · rintro (h | h)
        · rcases List.mem_append.mp h with h | h
          · exact Or.inl h
          · simp at h
            exact Or.inr (by simp [h])
        · exact Or.inr (List.mem_cons_of_mem _ h)
      · rintro (h | h)
        · exact Or.inl (List.mem_append.mpr (Or.inl h))
        · rcases List.mem_cons.mp h with rfl | h
          · exact Or.inl (by simp)
          · exact Or.inr h

theorem mem_dedupFirst (xs : List κ) (x : κ) :
    x ∈ dedupFirst xs ↔ x ∈ xs := by
  unfold dedupFirst
  rw [mem_dedupFirst_aux]
  simp

theorem nodup_dedupFirst_aux (xs : List κ) :
    ∀ acc : List κ, acc.Nodup →
      (xs.foldl (fun acc x => if x ∈ acc then acc else acc ++ [x])
        acc).Nodup := by
  induction xs with
  | nil => intro acc h; exact h
  | cons y xs ih =>
    intro acc h
    simp only [List.foldl_cons]
    apply ih
    by_cases hy : y ∈ acc
    · simpa [hy] using h
    · simp [hy, List.nodup_append, h]

theorem nodup_dedupFirst (xs : List κ) : (dedupFirst xs).Nodup :=
  nodup_dedupFirst_aux xs [] List.nodup_nil

end CounterLemmas

/-- In a duplicate-free list, any two distinct members appear in one order
or the other. -/
theorem pair_sublist_or {α : Type} {l : List α} (hn : l.Nodup) {a b : α}
    (ha : a ∈ l) (hb : b ∈ l) (hne : a ≠ b) :
    [a, b].Sublist l ∨ [b, a].Sublist l := by
  induction l with
  | nil => cases ha
  | cons x tl ih =>
    rcases List.mem_cons.mp ha with rfl | ha'
    · left
      refine List.Sublist.cons₂ _ (List.singleton_sublist.mpr ?_)
      rcases List.mem_cons.mp hb with rfl | hb'
      · exact absurd rfl hne
      · exact hb'
    · rcases List.mem_cons.mp hb with rfl | hb'
      · right
        exact List.Sublist.cons₂ _ (List.singleton_sublist.mpr ha')
      · rcases ih (List.Nodup.of_cons hn) ha' hb' with h | h
        · exact Or.inl (h.cons x)
        · exact Or.inr (h.cons x)

/-- In a duplicate-free list, two members cannot appear in both orders. -/
theorem pair_sublist_antisymm {α : Type} {l : List α} {a b : α}
    (h1 : [a, b].Sublist l) (h2 : [b, a].Sublist l) (hn : l.Nodup) :
    a = b := by
  induction l with
  | nil => cases h1
  | cons x tl ih =>
    cases h1 with
    | cons _ h1' =>
      cases h2 with
      | cons _ h2' => exact ih h1' h2' (List.Nodup.of_cons hn)
      | cons₂ _ h2' =>
        exact absurd (h1'.subset (by simp)) (List.nodup_cons.mp hn).1
    | cons₂ _ h1' =>
      cases h2 with
      | cons _ h2' =>
        exact absurd (h2'.subset (by simp)) (List.nodup_cons.mp hn).1
      | cons₂ _ h2' => rfl

/-- Descending stable sort by a numeric key: the order of the sorted output
is weakly descending on keys. -/
theorem mergeSort_pair_le {α : Type} (key : α → Nat) (l : List α) (a b : α)
    (hab : [a, b].Sublist (l.mergeSort (fun x y => key y ≤ key x))) :
    key b ≤ key a := by
  have hs := @List.sorted_mergeSort _
    (fun x y => decide (key y ≤ key x))
    (fun x y z hxy hyz => by
      simp only [decide_eq_true_eq] at *
      omega)
    (fun x y => by
      simp only [Bool.or_eq_true, decide_eq_true_eq]
      omega) l
  have hp := List.Pairwise.sublist hab hs
  have := (List.pairwise_cons.mp hp).1 b (by simp)
  simpa using this

/-- Descending stable sort by a numeric key: elements with tied keys keep
their input order. -/
theorem mergeSort_tie_sublist {α : Type} (key : α → Nat) (l : List α)
    (hn : l.Nodup) (a b : α)
    (hab : [a, b].Sublist (l.mergeSort (fun x y => key y ≤ key x)))
    (tie : key a = key b) : [a, b].Sublist l := by
  have hperm := List.mergeSort_perm l (fun x y => decide (key y ≤ key x))
  have hnods : (l.mergeSort (fun x y => decide (key y ≤ key x))).Nodup :=
    (hperm.nodup_iff).mpr hn
  have hne : a ≠ b := by
    rintro rfl
    have := hab.nodup hnods
    simp at this
  have ha : a ∈ l := hperm.mem_iff.mp (hab.subset (by simp))
  have hb : b ∈ l := hperm.mem_iff.mp (hab.subset (by simp))
  rcases pair_sublist_or hn ha hb hne with h | h
  · exact h
  · exfalso
    have hpair : List.Pairwise
        (fun x y => (fun x y => decide (key y ≤ key x)) x y = true) [b, a] := by
      simp [tie]
    have hba := List.sublist_mergeSort
      (fun x y z hxy hyz => by
        simp only [decide_eq_true_eq] at *
        omega)
      (fun x y => by
        simp only [Bool.or_eq_true, decide_eq_true_eq]
        omega) hpair h
    exact hne (pair_sublist_antisymm hab hba hnods)

/-! ## C9 — tag cloud -/

/-- `tagCounts` is the counting fold over the normalized tag stream (records
in order, each record's tags in order). -/
theorem tagCounts_eq (recs : List ContentRecord) :
    tagCounts recs =
      countFold (((recs.map (fun r => r.tags)).flatten).map normalizeTag) := by
  unfold tagCounts countFold
  rw [List.foldl_map, List.foldl_flatten, List.foldl_map]
  rfl

/-- Counting a key in a mapped list is the length of the matching filter. -/
theorem count_map_eq_filter_length {α : Type} (f : α → String) (l : List α)
    (k : String) :
    (l.map f).count k = (l.filter (fun a => f a = k)).length := by
  induction l with
  | nil => rfl
  | cons a l ih =>
    rw [List.map_cons, List.count_cons, List.filter_cons, ih]
    by_cases h : f a = k
    · simp [h]
    · simp [h]

/-- Record with tags `["#AI", "ai"]`. -/
def tagRecA : ContentRecord :=
  { id := 0, userId := "u", topic := "t", titles := ["x"],
    description := "d", tags := ["#AI", "ai"], thumbnailIdeas := ["i"],
    scriptOutline := ["s"], aiModel := "A", isFavorite := false,
    createdAt := 2, updatedAt := 2 }

/-- Record with tags `["AI"]`. -/
def tagRecB : ContentRecord :=
  { id := 1, userId := "u", topic := "t", titles := ["x"],
    description := "d", tags := ["AI"], thumbnailIdeas := ["i"],
    scriptOutline := ["s"], aiModel := "A", isFavorite := false,
    createdAt := 1, updatedAt := 1 }

/-- C9: the tag cloud lower-cases each tag, strips one leading `#`, counts
occurrences of the normalized tag, sorts descending by count with ties in
first-seen order, and takes the top 20 (every omitted tag has a count no
greater than any kept entry); the tags `["#AI", "ai", "AI"]` across records
collapse to the single entry `("ai", 3)`. -/
theorem c9_tag_cloud :
    (∀ recs : List ContentRecord,
      (generateTagCloud recs).length ≤ 20 ∧
      (∀ e ∈ generateTagCloud recs,
        e.1 ∈ ((recs.map (fun r => r.tags)).flatten).map normalizeTag ∧
        e.2 = (((recs.map (fun r => r.tags)).flatten).filter
          (fun t => normalizeTag t = e.1)).length) ∧
      ((generateTagCloud recs).map Prod.fst).Nodup ∧
      (∀ a b, [a, b].Sublist (generateTagCloud recs) →
        b.2 ≤ a.2 ∧
        (a.2 = b.2 → [a.1, b.1].Sublist
          (dedupFirst (((recs.map (fun r => r.tags)).flatten).map
            normalizeTag)))) ∧
      (∀ t, t ∈ ((recs.map (fun r => r.tags)).flatten).map normalizeTag →
        t ∉ (generateTagCloud recs).map Prod.fst →
        ∀ e ∈ generateTagCloud recs,
          (((recs.map (fun r => r.tags)).flatten).filter
            (fun u => normalizeTag u = t)).length ≤ e.2)) ∧
    generateTagCloud [tagRecA, tagRecB] = [("ai", 3)] := by
  constructor
  · intro recs
    have hcounts : tagCounts recs =
        countFold (((recs.map (fun r => r.tags)).flatten).map normalizeTag) :=
      tagCounts_eq recs
    have hperm := List.mergeSort_perm (tagCounts recs)
      (fun a b => decide (b.2 ≤ a.2))
    have hkeysnodup : ((tagCounts recs).map Prod.fst).Nodup := by
      rw [hcounts, countFold_keys]
      exact nodup_dedupFirst _
    have hpairsnodup : (tagCounts recs).Nodup :=
      List.Nodup.of_map Prod.fst hkeysnodup
    have hsortkeysnodup :
        (((tagCounts recs).mergeSort (fun a b => decide (b.2 ≤ a.2))).map
          Prod.fst).Nodup :=
      ((hperm.map Prod.fst).nodup_iff).mpr hkeysnodup
    have hcountval : ∀ e : String × Nat, e ∈ tagCounts recs →
        e.1 ∈ ((recs.map (fun r => r.tags)).flatten).map normalizeTag ∧
        e.2 = (((recs.map (fun r => r.tags)).flatten).filter
          (fun t => normalizeTag t = e.1)).length := by
      intro e he
      have hget : getEntry (tagCounts recs) e.1 = some e.2 :=
        getEntry_of_mem_of_nodup hkeysnodup (by simpa using he)
      have hval : e.2 =
          (((recs.map (fun r => r.tags)).flatten).map normalizeTag).count
            e.1 := by
        have h := countFold_val
          (((recs.map (fun r => r.tags)).flatten).map normalizeTag) e.1
        rw [← hcounts, hget] at h
        simp only [Option.getD_some] at h
        exact h
      refine ⟨?_, ?_⟩
      · have h1 : e.1 ∈ (tagCounts recs).map Prod.fst :=
          List.mem_map_of_mem Prod.fst he
        rw [hcounts, countFold_keys] at h1
        exact (mem_dedupFirst _ _).mp h1
      · rw [hval, count_map_eq_filter_length]
    have hmemcloud : ∀ e ∈ generateTagCloud recs, e ∈ tagCounts recs := by
      intro e he
      exact hperm.mem_iff.mp ((List.take_subset _ _) he)
    refine ⟨?_, ?_, ?_, ?_, ?_⟩
    · rw [show (generateTagCloud recs).length =
        (((tagCounts recs).mergeSort (fun a b => decide (b.2 ≤ a.2))).take
          20).length from rfl]
      rw [List.length_take]
      exact min_le_left _ _
    · intro e he
      exact hcountval e (hmemcloud e he)
    · have hkeyseq : (generateTagCloud recs).map Prod.fst =
          (((tagCounts recs).mergeSort (fun a b => decide (b.2 ≤ a.2))).map
            Prod.fst).take 20 := by
        rw [show generateTagCloud recs =
          ((tagCounts recs).mergeSort (fun a b => decide (b.2 ≤ a.2))).take
            20 from rfl]
        rw [List.map_take]
      rw [hkeyseq]
      exact List.Sublist.nodup (List.take_sublist _ _) hsortkeysnodup
    · intro a b hab
      have habs : [a, b].Sublist ((tagCounts recs).mergeSort
          (fun x y => decide (y.2 ≤ x.2))) :=
        hab.trans (List.take_sublist _ _)
      refine ⟨mergeSort_pair_le Prod.snd (tagCounts recs) a b habs, ?_⟩
      intro htie
      have h2 := mergeSort_tie_sublist Prod.snd (tagCounts recs)
        hpairsnodup a b habs htie
      have h3 := h2.map Prod.fst
      rw [hcounts, countFold_keys] at h3
      exact h3
    · intro t ht htnot e he
      have hex : getEntry (tagCounts recs) t ≠ none := by
        rw [Ne, getEntry_eq_none_iff]
        intro hnot
        rw [hcounts, countFold_keys] at hnot
        exact hnot ((mem_dedupFirst _ _).mpr ht)
      obtain ⟨v, hv⟩ := Option.ne_none_iff_exists'.mp hex
      have hvval : v = (((recs.map (fun r => r.tags)).flatten).filter
          (fun u => normalizeTag u = t)).length := by
        have h := countFold_val
          (((recs.map (fun r => r.tags)).flatten).map normalizeTag) t
        rw [← hcounts, hv] at h
        simp only [Option.getD_some] at h
        rw [h, count_map_eq_filter_length]
      have hmemtv : (t, v) ∈ (tagCounts recs).mergeSort
          (fun a b => decide (b.2 ≤ a.2)) :=
        hperm.mem_iff.mpr (getEntry_mem hv)
      have hsorted := @List.sorted_mergeSort _
        (fun a b : String × Nat => decide (b.2 ≤ a.2))
        (fun x y z hxy hyz => by
          simp only [decide_eq_true_eq] at *
          omega)
        (fun x y => by
          simp only [Bool.or_eq_true, decide_eq_true_eq]
          omega) (tagCounts recs)
      rw [← List.take_append_drop 20 ((tagCounts recs).mergeSort
        (fun a b => decide (b.2 ≤ a.2)))] at hsorted hmemtv
      rcases List.mem_append.mp hmemtv with hin | hin
      · exfalso
        exact htnot (List.mem_map_of_mem Prod.fst hin)
      · have hrel := (List.pairwise_append.mp hsorted).2.2 e he (t, v) hin
        simp only [decide_eq_true_eq] at hrel
        rw [← hvval]
        exact hrel
  · have h1 : tagCounts [tagRecA, tagRecB] = [("ai", 3)] := by decide
    rw [show generateTagCloud [tagRecA, tagRecB] =
      ((tagCounts [tagRecA, tagRecB]).mergeSort
        (fun a b => decide (b.2 ≤ a.2))).take 20 from rfl, h1,
      List.mergeSort_singleton]
    rfl

/-- Witness for C9 at the concrete record set. -/
theorem c9_tag_cloud_witness :
    (generateTagCloud [tagRecA, tagRecB]).length ≤ 20 ∧
    (("ai", 3) : String × Nat).2 =
      ((([tagRecA, tagRecB].map (fun r => r.tags)).flatten).filter
        (fun t => normalizeTag t = (("ai", 3) : String × Nat).1)).length := by
  have h := c9_tag_cloud
  have hmem : (("ai", 3) : String × Nat) ∈ generateTagCloud [tagRecA, tagRecB] := by
    rw [h.2]
    exact List.mem_cons_self _ _
  exact ⟨(h.1 [tagRecA, tagRecB]).1,
    ((h.1 [tagRecA, tagRecB]).2.1 ("ai", 3) hmem).2⟩

/-! ## C8 — by-model distribution -/

/-- `modelCounts` is the counting fold over the model-id stream. -/
theorem countByModel_eq (recs : List ContentRecord) :
    countByModel recs = countFold (recs.map (fun r => r.aiModel)) := by
  unfold countByModel countFold
  rw [List.foldl_map]
  rfl

/-- `Math.round((c / t) * 100)` as the integer nearest (half up) the exact
rational, equals the source's integer arithmetic. -/
theorem roundPct_eq_floor (c t : Nat) (ht : 0 < t) :
    (roundPct c t : ℤ) = ⌊((c : ℚ) * 100) / (t : ℚ) + 1 / 2⌋ := by
  have ht' : (t : ℚ) ≠ 0 := Nat.cast_ne_zero.mpr ht.ne'
  have hq : ((c : ℚ) * 100) / (t : ℚ) + 1 / 2 =
      ((200 * c + t : ℕ) : ℚ) / ((2 * t : ℕ) : ℚ) := by
    push_cast
    field_simp
    ring
  rw [hq, Rat.floor_natCast_div_natCast]
  rfl

/-- Record with model `"A"`, newest. -/
def mRecA1 : ContentRecord :=
  { id := 0, userId := "u", topic := "t", titles := ["x"],
    description := "d", tags := ["g"], thumbnailIdeas := ["i"],
    scriptOutline := ["s"], aiModel := "A", isFavorite := false,
    createdAt := 3, updatedAt := 3 }

/-- Second record with model `"A"`. -/
def mRecA2 : ContentRecord :=
  { mRecA1 with id := 1, createdAt := 2, updatedAt := 2 }

/-- Record with model `"B"`. -/
def mRecB : ContentRecord :=
  { mRecA1 with id := 2, aiModel := "B", createdAt := 1, updatedAt := 1 }

/-- C8: the by-model distribution groups records by `aiModel` (one entry per
distinct model), reports each group's count and the independently rounded
integer percentage `round(count/total × 100)`, sorts descending by count
with ties in encounter order; for `{A, A, B}` it reports A (2, 67%) then
B (1, 33%). -/
theorem c8_model_distribution :
    (∀ recs : List ContentRecord, recs ≠ [] →
      (∀ e ∈ calculateContentByModel recs,
        e.count = (recs.filter (fun r => r.aiModel = e.modelId)).length ∧
        (e.percentage : ℤ) =
          ⌊((e.count : ℚ) * 100) / (recs.length : ℚ) + 1 / 2⌋ ∧
        e.modelName = extractModelName e.modelId) ∧
      (∀ m : String, (∃ e ∈ calculateContentByModel recs, e.modelId = m) ↔
        m ∈ recs.map (fun r => r.aiModel)) ∧
      ((calculateContentByModel recs).map (fun e => e.modelId)).Nodup ∧
      (∀ a b, [a, b].Sublist (calculateContentByModel recs) →
        b.count ≤ a.count ∧
        (a.count = b.count → [a.modelId, b.modelId].Sublist
          (dedupFirst (recs.map (fun r => r.aiModel)))))) ∧
    calculateContentByModel [mRecA1, mRecA2, mRecB] =
      [{ modelId := "A", modelName := "A", count := 2, percentage := 67 },
       { modelId := "B", modelName := "B", count := 1, percentage := 33 }] := by
  constructor
  · intro recs hne
    have htpos : 0 < recs.length := List.length_pos.mpr hne
    have hcounts : countByModel recs =
        countFold (recs.map (fun r => r.aiModel)) := countByModel_eq recs
    have hdef : calculateContentByModel recs =
        ((countByModel recs).map (fun e =>
          ({ modelId := e.1, modelName := extractModelName e.1,
             count := e.2,
             percentage := roundPct e.2 recs.length } : ModelStat))).mergeSort
          (fun a b => decide (b.count ≤ a.count)) := rfl
    have hperm := List.mergeSort_perm
      ((countByModel recs).map (fun e =>
        ({ modelId := e.1, modelName := extractModelName e.1,
           count := e.2,
           percentage := roundPct e.2 recs.length } : ModelStat)))
      (fun a b => decide (b.count ≤ a.count))
    have hkeysnodup : ((countByModel recs).map Prod.fst).Nodup := by
      rw [hcounts, countFold_keys]
      exact nodup_dedupFirst _
    have hpremap : ((countByModel recs).map (fun e =>
        ({ modelId := e.1, modelName := extractModelName e.1,
           count := e.2,
           percentage := roundPct e.2 recs.length } : ModelStat))).map
          (fun e => e.modelId) = (countByModel recs).map Prod.fst := by
      rw [List.map_map]
      rfl
    have hprenodup : ((countByModel recs).map (fun e =>
        ({ modelId := e.1, modelName := extractModelName e.1,
           count := e.2,
           percentage := roundPct e.2 recs.length } : ModelStat))).Nodup :=
      List.Nodup.of_map _ (by rw [hpremap]; exact hkeysnodup)
    have hcountval : ∀ kv : String × Nat, kv ∈ countByModel recs →
        kv.2 = (recs.filter (fun r => r.aiModel = kv.1)).length := by
      intro kv hkv
      have hget : getEntry (countByModel recs) kv.1 = some kv.2 :=
        getEntry_of_mem_of_nodup hkeysnodup (by simpa using hkv)
      have h := countFold_val (recs.map (fun r => r.aiModel)) kv.1
      rw [← hcounts, hget] at h
      simp only [Option.getD_some] at h
      rw [h, count_map_eq_filter_length]
    refine ⟨?_, ?_, ?_, ?_⟩
    · intro e he
      rw [hdef] at he
      have hpre := hperm.mem_iff.mp he
      obtain ⟨kv, hkv, rfl⟩ := List.mem_map.mp hpre
      refine ⟨hcountval kv hkv, ?_, rfl⟩
      have := roundPct_eq_floor kv.2 recs.length htpos
      simpa using this
    · intro m
      constructor
      · rintro ⟨e, he, rfl⟩
        rw [hdef] at he
        have hpre := hperm.mem_iff.mp he
        obtain ⟨kv, hkv, rfl⟩ := List.mem_map.mp hpre
        have h1 : kv.1 ∈ (countByModel recs).map Prod.fst :=
          List.mem_map_of_mem Prod.fst hkv
        rw [hcounts, countFold_keys] at h1
        exact (mem_dedupFirst _ _).mp h1
      · intro hm
        have h1 : m ∈ (countByModel recs).map Prod.fst := by
          rw [hcounts, countFold_keys]
          exact (mem_dedupFirst _ _).mpr hm
        obtain ⟨kv, hkv, hkv1⟩ := List.mem_map.mp h1
        have hmemS : ModelStat.mk kv.1 (extractModelName kv.1) kv.2
            (roundPct kv.2 recs.length) ∈ calculateContentByModel recs := by
          rw [hdef]
          exact hperm.mem_iff.mpr (List.mem_map_of_mem _ hkv)
        exact ⟨_, hmemS, hkv1⟩
    · rw [hdef]
      have := (hperm.map (fun e => e.modelId)).nodup_iff.mpr
        (by rw [hpremap]; exact hkeysnodup)
      exact this
    · intro a b hab
      rw [hdef] at hab
      refine ⟨mergeSort_pair_le ModelStat.count _ a b hab, ?_⟩
      intro htie
      have h2 := mergeSort_tie_sublist ModelStat.count _ hprenodup a b hab
        htie
      have h3 := h2.map (fun e => e.modelId)
      rw [hpremap, hcounts, countFold_keys] at h3
      exact h3
  · have h1 : countByModel [mRecA1, mRecA2, mRecB] = [("A", 2), ("B", 1)]
      := by decide
    have hdef : calculateContentByModel [mRecA1, mRecA2, mRecB] =
        ((countByModel [mRecA1, mRecA2, mRecB]).map (fun e =>
          ({ modelId := e.1, modelName := extractModelName e.1,
             count := e.2, percentage := roundPct e.2 3 } : ModelStat))).mergeSort
          (fun a b => decide (b.count ≤ a.count)) := rfl
    rw [hdef, h1]
    rw [show ([(("A" : String), (2 : Nat)), ("B", 1)]).map (fun e =>
        ({ modelId := e.1, modelName := extractModelName e.1,
           count := e.2, percentage := roundPct e.2 3 } : ModelStat)) =
      [{ modelId := "A", modelName := "A", count := 2, percentage := 67 },
       { modelId := "B", modelName := "B", count := 1, percentage := 33 }]
      from by decide]
    exact List.mergeSort_of_sorted (by decide)

/-- Witness for C8 at the concrete record set `{A, A, B}`. -/
theorem c8_model_distribution_witness :
    (ModelStat.mk "A" "A" 2 67).count =
      ([mRecA1, mRecA2, mRecB].filter
        (fun r => r.aiModel = (ModelStat.mk "A" "A" 2 67).modelId)).length ∧
    (((ModelStat.mk "A" "A" 2 67).percentage : ℤ) =
      ⌊(((ModelStat.mk "A" "A" 2 67).count : ℚ) * 100) /
        (([mRecA1, mRecA2, mRecB] : List ContentRecord).length : ℚ) +
        1 / 2⌋) := by
  have h := c8_model_distribution
  have hmem : ModelStat.mk "A" "A" 2 67 ∈
      calculateContentByModel [mRecA1, mRecA2, mRecB] := by
    rw [h.2]
    exact List.mem_cons_self _ _
  have h2 := (h.1 [mRecA1, mRecA2, mRecB] (by decide)).1 _ hmem
  exact ⟨h2.1, h2.2.1⟩

/-! ## C7 — the 30-day timeline -/

/-- Setting a key absent from the map appends the new entry. -/
theorem setEntry_append_of_not_mem {κ ν : Type} [DecidableEq κ]
    (k : κ) (v : ν) : ∀ (m : List (κ × ν)), k ∉ m.map Prod.fst →
      setEntry m k v = m ++ [(k, v)]
  | [] => fun _ => rfl
  | (k', v') :: rest => fun h => by
    simp only [List.map_cons, List.mem_cons] at h
    push_neg at h
    simp only [setEntry, List.cons_append]
    rw [if_neg (Ne.symm h.1), setEntry_append_of_not_mem k v rest h.2]

/-- `getEntry` over a map whose keys are images of an injective key
function. -/
theorem getEntry_map_key {ι : Type} (key val : ι → Nat) (i₀ : ι) :
    ∀ (l : List ι), (∀ i ∈ l, key i = key i₀ → i = i₀) → i₀ ∈ l →
      getEntry (l.map (fun i => (key i, val i))) (key i₀) = some (val i₀)
  | [] => fun _ h => absurd h (List.not_mem_nil i₀)
  | x :: tl => fun hinj hi₀ => by
    simp only [List.map_cons, getEntry]
    by_cases hx : key x = key i₀
    · have hxe : x = i₀ := hinj x (List.mem_cons_self x tl) hx
      subst hxe
      rw [if_pos rfl]
    · rw [if_neg hx]
      have hi₀tl : i₀ ∈ tl := by
        rcases List.mem_cons.mp hi₀ with he | h
        · exact absurd (by rw [he]) hx
        · exact h
      exact getEntry_map_key key val i₀ tl
        (fun i hi h => hinj i (List.mem_cons_of_mem _ hi) h) hi₀tl

/-- `setEntry` over a map whose keys are images of an injective key
function updates the matching entry in place. -/
theorem setEntry_map_key {ι : Type} [DecidableEq ι] (key val : ι → Nat)
    (w : Nat) (i₀ : ι) :
    ∀ (l : List ι), l.Nodup →
      (∀ i ∈ l, ∀ j ∈ l, key i = key j → i = j) → i₀ ∈ l →
      setEntry (l.map (fun i => (key i, val i))) (key i₀) w =
        l.map (fun i => (key i, if i = i₀ then w else val i))
  | [] => fun _ _ h => absurd h (List.not_mem_nil i₀)
  | x :: tl => fun hnd hinj hi₀ => by
    have hxtl : x ∉ tl := (List.nodup_cons.mp hnd).1
    have hndtl : tl.Nodup := (List.nodup_cons.mp hnd).2
    simp only [List.map_cons, setEntry]
    by_cases hx : key x = key i₀
    · have hxe : x = i₀ := hinj x (List.mem_cons_self x tl) i₀ hi₀ hx
      subst hxe
      rw [if_pos rfl]
      congr 1
      · simp
      · apply List.map_congr_left
        intro i hi
        have hne : i ≠ x := fun he => hxtl (he ▸ hi)
        simp [hne]
    · rw [if_neg hx]
      have hxne : x ≠ i₀ := fun he => hx (by rw [he])
      have hi₀tl : i₀ ∈ tl := by
        rcases List.mem_cons.mp hi₀ with he | h
        · exact absurd (by rw [he]) hx
        · exact h
      rw [setEntry_map_key key val w i₀ tl hndtl
        (fun i hi j hj h => hinj i (List.mem_cons_of_mem _ hi) j
          (List.mem_cons_of_mem _ hj) h) hi₀tl]
      congr 1
      simp [hxne]

/-- Equal first components: a pair equality follows from the seconds. -/
theorem pair_eq_of_snd {a b c : Nat} (h : b = c) : (a, b) = (a, c) := by
  rw [h]

/-- Closed form of the 30 pre-seeded buckets: days `dayOf now` down to
`dayOf now - 29`, all zero. -/
theorem initTimeline_eq (now : Nat) (hnow : 30 * dayMs ≤ now) :
    initTimeline now = (List.range 30).map (fun i => (dayOf now - i, 0)) := by
  have hd0 : 30 ≤ dayOf now := by
    simp only [dayOf, dayMs] at hnow ⊢
    omega
  have haux : ∀ n, n ≤ 30 →
      (List.range n).foldl
        (fun m i => setEntry m (dayOf (now - i * dayMs)) 0) [] =
      (List.range n).map (fun i => (dayOf now - i, 0)) := by
    intro n
    induction n with
    | zero => intro _; rfl
    | succ k ih =>
      intro hk
      rw [List.range_succ, List.foldl_append, List.map_append, ih (by omega)]
      simp only [List.foldl_cons, List.foldl_nil, List.map_cons, List.map_nil]
      have hday : dayOf (now - k * dayMs) = dayOf now - k := by
        simp only [dayOf]
        rw [Nat.mul_comm k dayMs]
        refine Nat.sub_mul_div now dayMs k ?_
        simp only [dayMs] at hnow ⊢
        omega
      rw [hday]
      have hnot : dayOf now - k ∉
          ((List.range k).map (fun i => (dayOf now - i, 0))).map Prod.fst := by
        intro hmem
        rw [List.map_map] at hmem
        obtain ⟨i, hi, hieq⟩ := List.mem_map.mp hmem
        simp only [List.mem_range] at hi
        simp only [Function.comp_apply] at hieq
        omega
      rw [setEntry_append_of_not_mem _ _ _ hnot]
  exact haux 30 (Nat.le_refl 30)

/-- The bucket-filling fold over a map on the 30 window days, assuming every
cutoff-passing record has its day among those window days. -/
theorem fillFold_eq (now : Nat) (hnow : 30 * dayMs ≤ now)
    (rs : List ContentRecord) :
    ∀ (v : Nat → Nat),
      (∀ r ∈ rs, now - 30 * dayMs ≤ r.createdAt →
        dayOf now - 29 ≤ dayOf r.createdAt ∧ dayOf r.createdAt ≤ dayOf now) →
      rs.foldl
          (fun m r =>
            if now - 30 * dayMs ≤ r.createdAt then
              setEntry m (dayOf r.createdAt)
                ((getEntry m (dayOf r.createdAt)).getD 0 + 1)
            else m)
          ((List.range 30).map (fun i => (dayOf now - i, v i))) =
        (List.range 30).map (fun i => (dayOf now - i,
          v i + (rs.filter (fun r =>
            decide (now - 30 * dayMs ≤ r.createdAt) &&
            decide (dayOf r.createdAt = dayOf now - i))).length)) := by
  have hd0 : 30 ≤ dayOf now := by
    simp only [dayOf, dayMs] at hnow ⊢
    omega
  induction rs with
  | nil =>
    intro v _
    simp
  | cons r rs ih =>
    intro v H
    have hH : ∀ x ∈ rs, now - 30 * dayMs ≤ x.createdAt →
        dayOf now - 29 ≤ dayOf x.createdAt ∧ dayOf x.createdAt ≤ dayOf now :=
      fun x hx => H x (List.mem_cons_of_mem _ hx)
    simp only [List.foldl_cons]
    by_cases hr : now - 30 * dayMs ≤ r.createdAt
    · obtain ⟨hlb, hub⟩ := H r (List.mem_cons_self _ _) hr
      obtain ⟨i₀, hi₀lt, hkey⟩ :
          ∃ i₀, i₀ < 30 ∧ dayOf r.createdAt = dayOf now - i₀ :=
        ⟨dayOf now - dayOf r.createdAt, by omega, by omega⟩
      have hinj1 : ∀ i ∈ List.range 30,
          dayOf now - i = dayOf now - i₀ → i = i₀ := by
        intro i hi h
        simp only [List.mem_range] at hi
        omega
      have hinj2 : ∀ i ∈ List.range 30, ∀ j ∈ List.range 30,
          dayOf now - i = dayOf now - j → i = j := by
        intro i hi j hj h
        simp only [List.mem_range] at hi hj
        omega
      rw [if_pos hr, hkey]
      rw [getEntry_map_key (fun i => dayOf now - i) v i₀ (List.range 30)
        hinj1 (List.mem_range.mpr hi₀lt)]
      simp only [Option.getD_some]
      rw [setEntry_map_key (fun i => dayOf now - i) v (v i₀ + 1) i₀
        (List.range 30) (List.nodup_range 30) hinj2
        (List.mem_range.mpr hi₀lt)]
      rw [ih (fun i => if i = i₀ then v i₀ + 1 else v i) hH]
      apply List.map_congr_left
      intro i hi
      simp only [List.mem_range] at hi
      apply pair_eq_of_snd
      rw [List.filter_cons]
      by_cases hieq : i = i₀
      · rw [hieq]
        have hp : (decide (now - 30 * dayMs ≤ r.createdAt) &&
            decide (dayOf r.createdAt = dayOf now - i₀)) = true := by
          simp only [Bool.and_eq_true, decide_eq_true_eq]
          exact ⟨hr, hkey⟩
        rw [if_pos hp]
        simp only [eq_self_iff_true, if_true, List.length_cons]
        omega
      · have hnd : ¬(dayOf r.createdAt = dayOf now - i) := by
          rw [hkey]
          omega
        have hq : (decide (now - 30 * dayMs ≤ r.createdAt) &&
            decide (dayOf r.createdAt = dayOf now - i)) = false := by
          rw [decide_eq_false hnd, Bool.and_false]
        simp only [hq, Bool.false_eq_true, if_false, if_neg hieq]
    · rw [if_neg hr]
      rw [ih v hH]
      apply List.map_congr_left
      intro i hi
      apply pair_eq_of_snd
      rw [List.filter_cons]
      have hq : (decide (now - 30 * dayMs ≤ r.createdAt) &&
          decide (dayOf r.createdAt = dayOf now - i)) = false := by
        rw [decide_eq_false hr, Bool.false_and]
      simp only [hq, Bool.false_eq_true, if_false]

/-- Closed form of the filled (unsorted) buckets: under the window-alignment
hypothesis, the cutoff test is implied by the day equation, so each window
day carries the count of the records created on it. -/
theorem fillTimeline_eq (now : Nat) (recs : List ContentRecord)
    (hnow : 30 * dayMs ≤ now)
    (H : ∀ r ∈ recs, now - 30 * dayMs ≤ r.createdAt →
      dayOf now - 29 ≤ dayOf r.createdAt ∧ dayOf r.createdAt ≤ dayOf now) :
    fillTimeline now recs =
      (List.range 30).map (fun i => (dayOf now - i,
        (recs.filter (fun r =>
          decide (dayOf r.createdAt = dayOf now - i))).length)) := by
  have h := fillFold_eq now hnow recs (fun _ => 0) H
  simp only [Nat.zero_add] at h
  show List.foldl _ (initTimeline now) recs = _
  rw [initTimeline_eq now hnow, h]
  apply List.map_congr_left
  intro i hi
  simp only [List.mem_range] at hi
  apply pair_eq_of_snd
  refine congrArg List.length (List.filter_congr ?_)
  intro r hr
  by_cases hB : dayOf r.createdAt = dayOf now - i
  · have h1 : decide (dayOf r.createdAt = dayOf now - i) = true :=
      decide_eq_true hB
    have h2 : decide (now - 30 * dayMs ≤ r.createdAt) = true := by
      apply decide_eq_true
      have hmul : r.createdAt / dayMs * dayMs ≤ r.createdAt :=
        Nat.div_mul_le_self _ _
      simp only [dayOf, dayMs] at hB hmul hnow ⊢
      omega
    rw [h1, h2]
    rfl
  · have h1 : decide (dayOf r.createdAt = dayOf now - i) = false :=
      decide_eq_false hB
    rw [h1, Bool.and_false]

/-- Sorting the descending window buckets ascending by day reverses them. -/
theorem timeline_sort (d0 : Nat) (hd : 29 ≤ d0) (c : Nat → Nat) :
    ((List.range 30).map (fun i => (d0 - i, c i))).mergeSort
        (fun a b => a.1 ≤ b.1) =
      (List.range 30).map (fun j => (d0 - 29 + j, c (29 - j))) := by
  have hrev : (List.range 30).reverse = (List.range 30).map (fun i => 29 - i) := by
    decide
  have htgt : (List.range 30).map (fun j => (d0 - 29 + j, c (29 - j))) =
      ((List.range 30).map (fun i => (d0 - i, c i))).reverse := by
    rw [← List.map_reverse, hrev, List.map_map]
    apply List.map_congr_left
    intro i hi
    simp only [List.mem_range] at hi
    show (d0 - 29 + i, c (29 - i)) = (d0 - (29 - i), c (29 - i))
    have hfst : d0 - 29 + i = d0 - (29 - i) := by omega
    rw [hfst]
  rw [htgt]
  have hperm : List.Perm
      (((List.range 30).map (fun i => (d0 - i, c i))).mergeSort
        (fun a b => a.1 ≤ b.1))
      (((List.range 30).map (fun i => (d0 - i, c i))).reverse) :=
    (List.mergeSort_perm _ _).trans (List.reverse_perm _).symm
  have hle : (((List.range 30).map (fun i => (d0 - i, c i))).mergeSort
      (fun a b => a.1 ≤ b.1)).Pairwise
        (fun a b : Nat × Nat => a.1 ≤ b.1) := by
    have hs := @List.sorted_mergeSort (Nat × Nat)
      (fun a b => decide (a.1 ≤ b.1))
      (fun a b c' hab hbc => by
        simp only [decide_eq_true_eq] at *
        omega)
      (fun a b => by
        simp only [Bool.or_eq_true, decide_eq_true_eq]
        omega)
      ((List.range 30).map (fun i => (d0 - i, c i)))
    exact hs.imp (fun h => of_decide_eq_true h)
  have hne : (((List.range 30).map (fun i => (d0 - i, c i))).mergeSort
      (fun a b => a.1 ≤ b.1)).Pairwise
        (fun a b : Nat × Nat => a.1 ≠ b.1) := by
    have hsrc : ((List.range 30).map (fun i => (d0 - i, c i))).Pairwise
        (fun a b : Nat × Nat => a.1 ≠ b.1) := by
      rw [List.pairwise_map]
      refine (List.pairwise_lt_range 30).imp_of_mem ?_
      intro a b ha hb hab
      simp only [List.mem_range] at ha hb
      show d0 - a ≠ d0 - b
      omega
    exact ((List.mergeSort_perm _ _).pairwise_iff
      (fun h => Ne.symm h)).mpr hsrc
  have hstrict1 : List.Sorted (fun a b : Nat × Nat => a.1 < b.1)
      (((List.range 30).map (fun i => (d0 - i, c i))).mergeSort
        (fun a b => a.1 ≤ b.1)) :=
    (hle.and hne).imp (fun h => lt_of_le_of_ne h.1 h.2)
  have hstrict2 : List.Sorted (fun a b : Nat × Nat => a.1 < b.1)
      (((List.range 30).map (fun i => (d0 - i, c i))).reverse) := by
    show (((List.range 30).map (fun i => (d0 - i, c i))).reverse).Pairwise
      (fun a b : Nat × Nat => a.1 < b.1)
    rw [List.pairwise_reverse, List.pairwise_map]
    refine (List.pairwise_lt_range 30).imp_of_mem ?_
    intro a b ha hb hab
    simp only [List.mem_range] at ha hb
    show d0 - b < d0 - a
    omega
  haveI : IsAntisymm (Nat × Nat) (fun a b => a.1 < b.1) :=
    ⟨fun a b h1 h2 => absurd (Nat.lt_trans h1 h2) (Nat.lt_irrefl _)⟩
  exact List.eq_of_perm_of_sorted hperm hstrict1 hstrict2

/-- **C7** (amended): for every current time at least 30 days past the epoch
and every record set in which each record passing the cutoff
(`createdAt ≥ now − 30 days`) was created on one of the 30 UTC window days
(`dayOf now − 29 … dayOf now`), the timeline is exactly the 30 window days
in ascending order, day `dayOf now − 29 + j` carrying the number of records
created on that day — all 30 buckets present, zero counts included, one
bucket per day. The alignment hypothesis is needed: the code admits records
from the sliver of day `dayOf now − 30` still within the cutoff, which add
a 31st bucket (see the counterexample). -/
theorem c7_timeline_window (now : Nat) (recs : List ContentRecord)
    (hnow : 30 * dayMs ≤ now)
    (H : ∀ r ∈ recs, now - 30 * dayMs ≤ r.createdAt →
      dayOf now - 29 ≤ dayOf r.createdAt ∧ dayOf r.createdAt ≤ dayOf now) :
    calculateTimeline now recs =
      (List.range 30).map (fun j => (dayOf now - 29 + j,
        (recs.filter (fun r =>
          decide (dayOf r.createdAt = dayOf now - 29 + j))).length)) := by
  have hd0 : 30 ≤ dayOf now := by
    simp only [dayOf, dayMs] at hnow ⊢
    omega
  show (fillTimeline now recs).mergeSort (fun a b => a.1 ≤ b.1) = _
  rw [fillTimeline_eq now recs hnow H]
  rw [timeline_sort (dayOf now) (by omega) (fun i =>
    (recs.filter (fun r =>
      decide (dayOf r.createdAt = dayOf now - i))).length)]
  apply List.map_congr_left
  intro j hj
  simp only [List.mem_range] at hj
  have hq : dayOf now - (29 - j) = dayOf now - 29 + j := by omega
  apply pair_eq_of_snd
  rw [hq]

/-- `now` for the C7 witness and counterexample: 6:00 UTC on day 30. -/
def c7Now : Nat := 30 * dayMs + 21600000

/-- A record created exactly at the witness `now` (today). -/
def c7RecToday : ContentRecord :=
  { sampleRecord with createdAt := c7Now, updatedAt := c7Now }

/-- C7 witness: the spec's own example — one record created today gives the
30 ascending window days `1 … 30`, today's count 1 and all others 0. -/
theorem c7_timeline_window_witness :
    calculateTimeline c7Now [c7RecToday] =
      (List.range 30).map (fun j => (1 + j, if j = 29 then 1 else 0)) := by
  rw [c7_timeline_window c7Now [c7RecToday] (by decide) (by decide)]
  decide

/-- A record still inside the cutoff (`createdAt ≥ now − 30 days`, here noon
of day 0) whose UTC day precedes every pre-seeded window day. -/
def c7Sliver : ContentRecord :=
  { sampleRecord with createdAt := dayMs / 2, updatedAt := dayMs / 2 }

/-- C7 counterexample: a cutoff-passing record created in the sliver of the
31st calendar day back gets a fresh bucket, so the timeline has 31 entries,
refuting the claim's fixed 30-day shape. -/
theorem c7_counterexample :
    (calculateTimeline c7Now [c7Sliver]).length = 31 ∧
    (calculateTimeline c7Now [c7Sliver]).length ≠ 30 := by
  have h : (calculateTimeline c7Now [c7Sliver]).length =
      (fillTimeline c7Now [c7Sliver]).length :=
    (List.mergeSort_perm _ _).length_eq
  have h2 : (fillTimeline c7Now [c7Sliver]).length = 31 := by decide
  constructor
  · rw [h, h2]
  · rw [h, h2]
    decide

end TubeGenie
